import Mathlib

/-!
NXP LX PCIe controller: register layout and paged register accessors.

A shallow embedding of `drivers/pci/pcie_lx.h`.

* Object-like and function-like macros become `Nat` constants and functions.
* `u32` values are `Nat` reduced `% 2 ^ 32` where the C type truncates, the `u8`
  parameter of `ccsr_set_page` is reduced `% 2 ^ 8`.
* The `static inline` accessors become state-passing functions over a bus;
  every bus access is appended to a log so that access traces can be stated.
-/

namespace PcieLx

/-! ## Constants of the header -/

def CONFIG_SYS_PCI_MEMORY_SIZE : Nat := 4 * 1024 * 1024 * 1024
def PCIE_PF_NUM : Nat := 2
def PCIE_VF_NUM : Nat := 32
def BAR_NUM : Nat := 4
def PF1_BAR_OFFSET : Nat := 4
def PF0_VF_BAR_OFFSET : Nat := 8
def PF1_VF_BAR_OFFSET : Nat := 12
def PCIE_BAR_SIZE : Nat := 8 * 1024
def SIZE_1T : Nat := 1024 * 1024 * 1024 * 1024
def SIZE_1M : Nat := 1024 * 1024

/-- The macro `BIT(n)`, that is `1 << n`. -/
def BIT (n : Nat) : Nat := 1 <<< n

/-! ### LUT registers -/

def PCIE_LUT_UDR (n : Nat) : Nat := 0x800 + n * 8
def PCIE_LUT_LDR (n : Nat) : Nat := 0x804 + n * 8
def PCIE_LUT_ENABLE : Nat := BIT 31
def PCIE_LUT_ENTRY_COUNT : Nat := 32

/-! ### GPEX CSR -/

def GPEX_SRIOV_INIT_VFS_TOTAL_VF (func : Nat) : Nat := 0x644 + func * 4
def TTL_VF_MASK : Nat := 0xffff
def TTL_VF_SHIFT : Nat := 16
def INI_VF_MASK : Nat := 0xffff
def INI_VF_SHIFT : Nat := 0
def GPEX_SRIOV_VF_OFFSET_STRIDE (func : Nat) : Nat := 0x704 + func * 4

/-! ### PAB CSR -/

def PAB_CTRL : Nat := 0x808
def PAB_CTRL_PAGE_SEL_SHIFT : Nat := 13
def PAB_CTRL_PAGE_SEL_MASK : Nat := 0x3f
def PAB_CTRL_FUNC_SEL_SHIFT : Nat := 19
def PAB_CTRL_FUNC_SEL_MASK : Nat := 0x1ff

def INDIRECT_ADDR_BNDRY : Nat := 0xc00
def PAGE_IDX_SHIFT : Nat := 10
def PAGE_ADDR_MASK : Nat := 0x3ff

def OFFSET_TO_PAGE_IDX (off : Nat) : Nat :=
  (off >>> PAGE_IDX_SHIFT) &&& PAB_CTRL_PAGE_SEL_MASK

def OFFSET_TO_PAGE_ADDR (off : Nat) : Nat :=
  (off &&& PAGE_ADDR_MASK) ||| INDIRECT_ADDR_BNDRY

/-! ### APIO windows (outbound) -/

def PAB_AXI_AMAP_CTRL (idx : Nat) : Nat := 0xba0 + 0x10 * idx
def PAB_EXT_AXI_AMAP_SIZE (idx : Nat) : Nat := 0xbaf0 + 0x4 * idx
def PAB_AXI_AMAP_AXI_WIN (idx : Nat) : Nat := 0xba4 + 0x10 * idx
def PAB_EXT_AXI_AMAP_AXI_WIN (idx : Nat) : Nat := 0x80a0 + 0x4 * idx
def PAB_AXI_AMAP_PEX_WIN_L (idx : Nat) : Nat := 0xba8 + 0x10 * idx
def PAB_AXI_AMAP_PEX_WIN_H (idx : Nat) : Nat := 0xbac + 0x10 * idx
def PAB_AXI_AMAP_PCI_HDR_PARAM (idx : Nat) : Nat := 0x5ba0 + 0x4 * idx

def AXI_AMAP_CTRL_EN : Nat := BIT 0
def AXI_AMAP_CTRL_TYPE_SHIFT : Nat := 1
def AXI_AMAP_CTRL_TYPE_MASK : Nat := 0x3
def AXI_AMAP_CTRL_SIZE_SHIFT : Nat := 10
def AXI_AMAP_CTRL_SIZE_MASK : Nat := 0x3fffff

def PAB_WINS_NUM : Nat := 256

/-! ### PPIO windows, RC mode (inbound) -/

def PAB_PEX_AMAP_CTRL (idx : Nat) : Nat := 0x4ba0 + 0x10 * idx
def PAB_EXT_PEX_AMAP_SIZE (idx : Nat) : Nat := 0xbef0 + 0x04 * idx
def PAB_PEX_AMAP_AXI_WIN (idx : Nat) : Nat := 0x4ba4 + 0x10 * idx
def PAB_EXT_PEX_AMAP_AXI_WIN (idx : Nat) : Nat := 0xb4a0 + 0x04 * idx
def PAB_PEX_AMAP_PEX_WIN_L (idx : Nat) : Nat := 0x4ba8 + 0x10 * idx
def PAB_PEX_AMAP_PEX_WIN_H (idx : Nat) : Nat := 0x4bac + 0x10 * idx

/-! ### PPIO windows, EP mode -/

def PAB_PEX_BAR_AMAP (func bar : Nat) : Nat := 0x1ba0 + 0x20 * func + 4 * bar
def PAB_EXT_PEX_BAR_AMAP (func bar : Nat) : Nat := 0x84a0 + 0x20 * func + 4 * bar

/-! ## The controller instance -/

/-- The scalar fields of `struct lx_pcie`: the four aperture base addresses,
the endianness flag and the bookkeeping integers. -/
structure lx_pcie where
  idx : Int
  ccsr : Nat
  cfg : Nat
  lut : Nat
  pf_ctrl : Nat
  big_endian : Bool
  enabled : Bool
  next_lut_index : Int
  stream_id_cur : Int
  mode : Int
  sriov_enabled : Int

/-! ## Bus accesses -/

/-- One 32-bit bus access: a read of an address, or a write of a value to it. -/
inductive Access where
  | read (addr : Nat)
  | write (addr : Nat) (val : Nat)
deriving DecidableEq, Repr

/-- The four 32-bit MMIO primitives used by the header (`in_le32`, `out_le32`,
`in_be32`, `out_be32` of `asm/io.h`), taken as a parameter: `σ` is the state of
the hardware behind the bus. -/
structure Bus (σ : Type) where
  in_le32 : σ → Nat → Nat
  out_le32 : σ → Nat → Nat → σ
  in_be32 : σ → Nat → Nat
  out_be32 : σ → Nat → Nat → σ

/-- Hardware state together with the log of accesses issued so far. -/
structure Sys (σ : Type) where
  hw : σ
  log : List Access

/-- The complement `~x` of an `int` mask, as seen after conversion to `u32`. -/
def not32 (x : Nat) : Nat := x ^^^ (2 ^ 32 - 1)

/-- Logged `in_le32`: the result is a `u32`. -/
def in_le32 {σ : Type} (bus : Bus σ) (addr : Nat) (s : Sys σ) : Nat × Sys σ :=
  (bus.in_le32 s.hw addr % 2 ^ 32, ⟨s.hw, s.log ++ [Access.read addr]⟩)

/-- Logged `out_le32`: the value is a `u32`. -/
def out_le32 {σ : Type} (bus : Bus σ) (addr : Nat) (val : Nat) (s : Sys σ) : Sys σ :=
  ⟨bus.out_le32 s.hw addr (val % 2 ^ 32), s.log ++ [Access.write addr (val % 2 ^ 32)]⟩

/-- Logged `in_be32`: the result is a `u32`. -/
def in_be32 {σ : Type} (bus : Bus σ) (addr : Nat) (s : Sys σ) : Nat × Sys σ :=
  (bus.in_be32 s.hw addr % 2 ^ 32, ⟨s.hw, s.log ++ [Access.read addr]⟩)

/-- Logged `out_be32`: the value is a `u32`. -/
def out_be32 {σ : Type} (bus : Bus σ) (addr : Nat) (val : Nat) (s : Sys σ) : Sys σ :=
  ⟨bus.out_be32 s.hw addr (val % 2 ^ 32), s.log ++ [Access.write addr (val % 2 ^ 32)]⟩

/-! ## The inline accessors -/

def lut_writel {σ : Type} (bus : Bus σ) (pcie : lx_pcie) (value offset : Nat)
    (s : Sys σ) : Sys σ :=
  if pcie.big_endian then
    out_be32 bus (pcie.lut + offset % 2 ^ 32) value s
  else
    out_le32 bus (pcie.lut + offset % 2 ^ 32) value s

def lut_readl {σ : Type} (bus : Bus σ) (pcie : lx_pcie) (offset : Nat)
    (s : Sys σ) : Nat × Sys σ :=
  if pcie.big_endian then
    in_be32 bus (pcie.lut + offset % 2 ^ 32) s
  else
    in_le32 bus (pcie.lut + offset % 2 ^ 32) s

def ccsr_set_page {σ : Type} (bus : Bus σ) (pcie : lx_pcie) (pg_idx : Nat)
    (s : Sys σ) : Sys σ :=
  let pg_idx := pg_idx % 2 ^ 8
  let r := in_le32 bus (pcie.ccsr + PAB_CTRL) s
  let val := r.1
  let val := val &&& not32 (PAB_CTRL_PAGE_SEL_MASK <<< PAB_CTRL_PAGE_SEL_SHIFT)
  let val := val ||| ((pg_idx &&& PAB_CTRL_PAGE_SEL_MASK) <<< PAB_CTRL_PAGE_SEL_SHIFT)
  out_le32 bus (pcie.ccsr + PAB_CTRL) val r.2

def ccsr_readl {σ : Type} (bus : Bus σ) (pcie : lx_pcie) (offset : Nat)
    (s : Sys σ) : Nat × Sys σ :=
  let offset := offset % 2 ^ 32
  if offset < INDIRECT_ADDR_BNDRY then
    in_le32 bus (pcie.ccsr + offset) (ccsr_set_page bus pcie 0 s)
  else
    in_le32 bus (pcie.ccsr + OFFSET_TO_PAGE_ADDR offset)
      (ccsr_set_page bus pcie (OFFSET_TO_PAGE_IDX offset) s)

def ccsr_writel {σ : Type} (bus : Bus σ) (pcie : lx_pcie) (offset value : Nat)
    (s : Sys σ) : Sys σ :=
  let offset := offset % 2 ^ 32
  if offset < INDIRECT_ADDR_BNDRY then
    out_le32 bus (pcie.ccsr + offset) value (ccsr_set_page bus pcie 0 s)
  else
    out_le32 bus (pcie.ccsr + OFFSET_TO_PAGE_ADDR offset) value
      (ccsr_set_page bus pcie (OFFSET_TO_PAGE_IDX offset) s)

def pf_ctrl_readl {σ : Type} (bus : Bus σ) (pcie : lx_pcie) (offset : Nat)
    (s : Sys σ) : Nat × Sys σ :=
  if pcie.big_endian then
    in_be32 bus (pcie.pf_ctrl + offset % 2 ^ 32) s
  else
    in_le32 bus (pcie.pf_ctrl + offset % 2 ^ 32) s

def pf_ctrl_writel {σ : Type} (bus : Bus σ) (pcie : lx_pcie) (offset value : Nat)
    (s : Sys σ) : Sys σ :=
  if pcie.big_endian then
    out_be32 bus (pcie.pf_ctrl + offset % 2 ^ 32) value s
  else
    out_le32 bus (pcie.pf_ctrl + offset % 2 ^ 32) value s

/-! ## A flat byte-addressed memory behind the bus -/

/-- Byte-addressed memory: the byte stored at each address. -/
abbrev ByteMem := Nat → Nat

/-- Memory `m` with byte `b` stored at address `a`. -/
def ByteMem.set (m : ByteMem) (a b : Nat) : ByteMem :=
  fun x => if x = a then b % 256 else m x

/-- Modelled from the spec: `out_le32` of `asm/io.h` is not in the header; a
32-bit little-endian store puts the least significant byte at the lowest
address. -/
def store_le32 (m : ByteMem) (a v : Nat) : ByteMem :=
  (((m.set a v).set (a + 1) (v / 2 ^ 8)).set (a + 2) (v / 2 ^ 16)).set (a + 3) (v / 2 ^ 24)

/-- Modelled from the spec: `out_be32` of `asm/io.h` is not in the header; a
32-bit big-endian store puts the most significant byte at the lowest address. -/
def store_be32 (m : ByteMem) (a v : Nat) : ByteMem :=
  (((m.set a (v / 2 ^ 24)).set (a + 1) (v / 2 ^ 16)).set (a + 2) (v / 2 ^ 8)).set (a + 3) v

/-- Modelled from the spec: `in_le32` of `asm/io.h` is not in the header; a
32-bit little-endian load takes the least significant byte from the lowest
address. -/
def load_le32 (m : ByteMem) (a : Nat) : Nat :=
  m a % 256 + 2 ^ 8 * (m (a + 1) % 256) + 2 ^ 16 * (m (a + 2) % 256)
    + 2 ^ 24 * (m (a + 3) % 256)

/-- Modelled from the spec: `in_be32` of `asm/io.h` is not in the header; a
32-bit big-endian load takes the most significant byte from the lowest
address. -/
def load_be32 (m : ByteMem) (a : Nat) : Nat :=
  2 ^ 24 * (m a % 256) + 2 ^ 16 * (m (a + 1) % 256) + 2 ^ 8 * (m (a + 2) % 256)
    + m (a + 3) % 256

/-- The bus whose hardware is a flat byte-addressed memory. -/
def memBus : Bus ByteMem where
  in_le32 := load_le32
  out_le32 := store_le32
  in_be32 := load_be32
  out_be32 := store_be32

/-- A controller instance with the given aperture bases and endianness flag. -/
def mkPcie (ccsr lut pf_ctrl : Nat) (big_endian : Bool) : lx_pcie :=
  { idx := 0, ccsr := ccsr, cfg := 0, lut := lut, pf_ctrl := pf_ctrl,
    big_endian := big_endian, enabled := true, next_lut_index := 0,
    stream_id_cur := 0, mode := 0, sriov_enabled := 0 }

/-- All-zero memory with an empty access log. -/
def zeroSys : Sys ByteMem := ⟨fun _ => 0, []⟩

/-- The accesses of a log that are writes to address `a`. -/
def writesTo (a : Nat) (log : List Access) : List Access :=
  log.filter fun e => match e with
    | Access.write b _ => decide (b = a)
    | Access.read _ => false

/-- The accesses of a log that are writes. -/
def writes (log : List Access) : List Access :=
  log.filter fun e => match e with
    | Access.write _ _ => true
    | Access.read _ => false

/-! ## Auxiliary definitions used by the statements -/

/-- Zeroed memory holding the pattern 0xdeadbeef in PAB_CTRL (base 0). -/
def patternSys : Sys ByteMem := ⟨store_le32 (fun _ => 0) PAB_CTRL 0xdeadbeef, []⟩

/-- The four bytes at address `a` hold `v` most-significant byte first. -/
def storedMsbFirst (m : ByteMem) (a v : Nat) : Prop :=
  m a = v / 2 ^ 24 % 256 ∧ m (a + 1) = v / 2 ^ 16 % 256 ∧
    m (a + 2) = v / 2 ^ 8 % 256 ∧ m (a + 3) = v % 256

/-- The four bytes at address `a` hold `v` least-significant byte first. -/
def storedLsbFirst (m : ByteMem) (a v : Nat) : Prop :=
  m a = v % 256 ∧ m (a + 1) = v / 2 ^ 8 % 256 ∧
    m (a + 2) = v / 2 ^ 16 % 256 ∧ m (a + 3) = v / 2 ^ 24 % 256

instance (m : ByteMem) (a v : Nat) : Decidable (storedMsbFirst m a v) := by
  unfold storedMsbFirst
  infer_instance

instance (m : ByteMem) (a v : Nat) : Decidable (storedLsbFirst m a v) := by
  unfold storedLsbFirst
  infer_instance

/-- The address of the data access of `ccsr_readl` and `ccsr_writel`. -/
def ccsr_data_addr (pcie : lx_pcie) (offset : Nat) : Nat :=
  if offset < INDIRECT_ADDR_BNDRY then pcie.ccsr + offset
  else pcie.ccsr + OFFSET_TO_PAGE_ADDR offset

/-- The thirteen per-window register families: seven of the outbound (APIO)
bank and six of the inbound (PPIO, RC mode) bank. -/
inductive WinReg where
  | AXI_AMAP_CTRL
  | AXI_AMAP_AXI_WIN
  | AXI_AMAP_PEX_WIN_L
  | AXI_AMAP_PEX_WIN_H
  | EXT_AXI_AMAP_AXI_WIN
  | EXT_AXI_AMAP_SIZE
  | AXI_AMAP_PCI_HDR_PARAM
  | PEX_AMAP_CTRL
  | PEX_AMAP_AXI_WIN
  | PEX_AMAP_PEX_WIN_L
  | PEX_AMAP_PEX_WIN_H
  | EXT_PEX_AMAP_AXI_WIN
  | EXT_PEX_AMAP_SIZE
deriving DecidableEq, Repr

/-- The offset macro of a register family at a window index. -/
def WinReg.offset : WinReg → Nat → Nat
  | .AXI_AMAP_CTRL, idx => PAB_AXI_AMAP_CTRL idx
  | .AXI_AMAP_AXI_WIN, idx => PAB_AXI_AMAP_AXI_WIN idx
  | .AXI_AMAP_PEX_WIN_L, idx => PAB_AXI_AMAP_PEX_WIN_L idx
  | .AXI_AMAP_PEX_WIN_H, idx => PAB_AXI_AMAP_PEX_WIN_H idx
  | .EXT_AXI_AMAP_AXI_WIN, idx => PAB_EXT_AXI_AMAP_AXI_WIN idx
  | .EXT_AXI_AMAP_SIZE, idx => PAB_EXT_AXI_AMAP_SIZE idx
  | .AXI_AMAP_PCI_HDR_PARAM, idx => PAB_AXI_AMAP_PCI_HDR_PARAM idx
  | .PEX_AMAP_CTRL, idx => PAB_PEX_AMAP_CTRL idx
  | .PEX_AMAP_AXI_WIN, idx => PAB_PEX_AMAP_AXI_WIN idx
  | .PEX_AMAP_PEX_WIN_L, idx => PAB_PEX_AMAP_PEX_WIN_L idx
  | .PEX_AMAP_PEX_WIN_H, idx => PAB_PEX_AMAP_PEX_WIN_H idx
  | .EXT_PEX_AMAP_AXI_WIN, idx => PAB_EXT_PEX_AMAP_AXI_WIN idx
  | .EXT_PEX_AMAP_SIZE, idx => PAB_EXT_PEX_AMAP_SIZE idx

/-- The register offsets of outbound window `idx`. -/
def outboundRegs (idx : Nat) : List Nat :=
  [PAB_AXI_AMAP_CTRL idx, PAB_AXI_AMAP_AXI_WIN idx, PAB_AXI_AMAP_PEX_WIN_L idx,
    PAB_AXI_AMAP_PEX_WIN_H idx, PAB_EXT_AXI_AMAP_AXI_WIN idx, PAB_EXT_AXI_AMAP_SIZE idx,
    PAB_AXI_AMAP_PCI_HDR_PARAM idx]

/-- The register offsets of inbound window `idx`. -/
def inboundRegs (idx : Nat) : List Nat :=
  [PAB_PEX_AMAP_CTRL idx, PAB_PEX_AMAP_AXI_WIN idx, PAB_PEX_AMAP_PEX_WIN_L idx,
    PAB_PEX_AMAP_PEX_WIN_H idx, PAB_EXT_PEX_AMAP_AXI_WIN idx, PAB_EXT_PEX_AMAP_SIZE idx]

/-- Modelled from the spec: the window size encoder is in the driver body, not
in the header; the base size field is the size shifted right by
AXI_AMAP_CTRL_SIZE_SHIFT and masked with AXI_AMAP_CTRL_SIZE_MASK. -/
def size_base_field (size : Nat) : Nat :=
  (size >>> AXI_AMAP_CTRL_SIZE_SHIFT) &&& AXI_AMAP_CTRL_SIZE_MASK

/-- Modelled from the spec: the window size encoder is in the driver body, not
in the header; the extension register holds the size bits from bit 32 up. -/
def size_ext_field (size : Nat) : Nat := size >>> 32

/-- Modelled from the spec: the window size encoder is in the driver body, not
in the header; the base size field is placed in the control register at
AXI_AMAP_CTRL_SIZE_SHIFT. -/
def size_ctrl_bits (size : Nat) : Nat :=
  size_base_field size <<< AXI_AMAP_CTRL_SIZE_SHIFT

/-- Modelled from the spec: the window size decoder is in the driver body, not
in the header; the size is the extension shifted to bit 32 joined with the base
field shifted back by AXI_AMAP_CTRL_SIZE_SHIFT. -/
def size_decode (ext base : Nat) : Nat :=
  (ext <<< 32) ||| (base <<< AXI_AMAP_CTRL_SIZE_SHIFT)

/-- Modelled from the spec: set_vf_counts is in the driver body, not in the
header; it packs the total and initial VF counts into one register word with
the header's TTL_VF and INI_VF masks and shifts. -/
def vf_counts_word (total initial : Nat) : Nat :=
  ((total &&& TTL_VF_MASK) <<< TTL_VF_SHIFT) ||| ((initial &&& INI_VF_MASK) <<< INI_VF_SHIFT)

/-- Modelled from the spec: the read-back of the VF counts is in the driver
body, not in the header; the total count is the TTL_VF field of the word. -/
def vf_counts_total (word : Nat) : Nat := (word >>> TTL_VF_SHIFT) &&& TTL_VF_MASK

/-- Modelled from the spec: the read-back of the VF counts is in the driver
body, not in the header; the initial count is the INI_VF field of the word. -/
def vf_counts_initial (word : Nat) : Nat := (word >>> INI_VF_SHIFT) &&& INI_VF_MASK

/-! ## Further constants of the header -/

def PAB_RST_CTRL : Nat := 0x820
def PAB_BR_STAT : Nat := 0x80c

/-! ### AXI PIO engines -/

def PAB_AXI_PIO_CTRL (idx : Nat) : Nat := 0x840 + 0x10 * idx
def PAB_AXI_PIO_STAT (idx : Nat) : Nat := 0x844 + 0x10 * idx
def PAB_AXI_PIO_SL_CMD_STAT (idx : Nat) : Nat := 0x848 + 0x10 * idx
def PAB_AXI_PIO_SL_ADDR_STAT (idx : Nat) : Nat := 0x84c + 0x10 * idx
def PAB_AXI_PIO_SL_EXT_ADDR_STAT (idx : Nat) : Nat := 0xb8a0 + 0x4 * idx

/-! ### PEX PIO engines -/

def PAB_PEX_PIO_CTRL (idx : Nat) : Nat := 0x8c0 + 0x10 * idx
def PAB_PEX_PIO_STAT (idx : Nat) : Nat := 0x8c4 + 0x10 * idx
def PAB_PEX_PIO_MT_STAT (idx : Nat) : Nat := 0x8c8 + 0x10 * idx

/-! ### Target fields and window types -/

def PAB_TARGET_BUS (x : Nat) : Nat := (x &&& 0xff) <<< 24
def PAB_TARGET_DEV (x : Nat) : Nat := (x &&& 0x1f) <<< 19
def PAB_TARGET_FUNC (x : Nat) : Nat := (x &&& 0x7) <<< 16

def PAB_AXI_TYPE_CFG : Nat := 0x00
def PAB_AXI_TYPE_IO : Nat := 0x01
def PAB_AXI_TYPE_MEM : Nat := 0x02
def PAB_AXI_TYPE_ATOM : Nat := 0x03

def IB_TYPE_MEM_F : Nat := 0x2
def IB_TYPE_MEM_NF : Nat := 0x3

def PEX_AMAP_CTRL_TYPE_SHIFT : Nat := 0x1
def PEX_AMAP_CTRL_EN_SHIFT : Nat := 0x0
def PEX_AMAP_CTRL_TYPE_MASK : Nat := 0x3
def PEX_AMAP_CTRL_EN_MASK : Nat := 0x1

/-! ### CCSR link status -/

def PCIE_LINK_CTRL_STA : Nat := 0x5c
def PCIE_LINK_SPEED_SHIFT : Nat := 16
def PCIE_LINK_SPEED_MASK : Nat := 0x0f
def PCIE_LINK_WIDTH_SHIFT : Nat := 20
def PCIE_LINK_WIDTH_MASK : Nat := 0x3f

/-! ## Further auxiliary definitions -/

/-- Modelled from the spec: read_link_status is in the driver body, not in the
header; the speed is the PCIE_LINK_SPEED field of the raw status word. -/
def link_speed (raw : Nat) : Nat := (raw >>> PCIE_LINK_SPEED_SHIFT) &&& PCIE_LINK_SPEED_MASK

/-- Modelled from the spec: read_link_status is in the driver body, not in the
header; the width is the PCIE_LINK_WIDTH field of the raw status word. -/
def link_width (raw : Nat) : Nat := (raw >>> PCIE_LINK_WIDTH_SHIFT) &&& PCIE_LINK_WIDTH_MASK

/-- A raw status word carrying speed `s` and width `w` at their bit positions,
with the remaining bits taken from `other`. -/
def link_status_word (other s w : Nat) : Nat :=
  (other &&& not32 ((PCIE_LINK_SPEED_MASK <<< PCIE_LINK_SPEED_SHIFT) |||
      (PCIE_LINK_WIDTH_MASK <<< PCIE_LINK_WIDTH_SHIFT)))
    ||| (s <<< PCIE_LINK_SPEED_SHIFT) ||| (w <<< PCIE_LINK_WIDTH_SHIFT)

/-- The control-field word packing a target (bus, device, function) triple. -/
def target_word (bus device function : Nat) : Nat :=
  PAB_TARGET_BUS bus ||| PAB_TARGET_DEV device ||| PAB_TARGET_FUNC function

/-- The four BAR index families of the header: the BARs of PF0 and PF1 and the
VF BARs of PF0 and PF1. -/
inductive BarFamily where
  | pf0
  | pf1
  | pf0_vf
  | pf1_vf
deriving DecidableEq, Repr

/-- The first BAR index of a family. -/
def BarFamily.base : BarFamily → Nat
  | .pf0 => 0
  | .pf1 => PF1_BAR_OFFSET
  | .pf0_vf => PF0_VF_BAR_OFFSET
  | .pf1_vf => PF1_VF_BAR_OFFSET

/-- The BAR index of BAR `b` of a family. -/
def BarFamily.index (fam : BarFamily) (b : Nat) : Nat := fam.base + b

/-- The error kinds of the control plane. -/
inductive PcieError where
  | IndexOutOfRange
  | CapacityExceeded
  | InvalidSize
  | OutOfRange
  | InvalidConfiguration
deriving DecidableEq, Repr

/-- Modelled from the spec: add_entry of the routing-table manager is in the
driver body, not in the header. It fails with CapacityExceeded, writing
nothing, when the cursor next_lut_index has reached PCIE_LUT_ENTRY_COUNT;
otherwise it takes the cursor as the index, writes the lower bound at
0x800 + 8 * index and the upper bound with the enable bit at
0x800 + 8 * index + 4 through lut_writel, and advances the cursor. -/
def add_entry {σ : Type} (bus : Bus σ) (pcie : lx_pcie) (lower upper : Nat)
    (s : Sys σ) : Except PcieError Int × lx_pcie × Sys σ :=
  if pcie.next_lut_index ≥ PCIE_LUT_ENTRY_COUNT then
    (Except.error PcieError.CapacityExceeded, pcie, s)
  else
    let index := pcie.next_lut_index
    let s1 := lut_writel bus pcie lower (0x800 + 8 * index).toNat s
    let s2 := lut_writel bus pcie (upper ||| PCIE_LUT_ENABLE) (0x800 + 8 * index + 4).toNat s1
    (Except.ok index, { pcie with next_lut_index := index + 1 }, s2)

/-- Calls add_entry once for each (lower, upper) pair of a list, in order, and
collects the results. -/
def add_entries {σ : Type} (bus : Bus σ) :
    List (Nat × Nat) → lx_pcie → Sys σ → List (Except PcieError Int) × lx_pcie × Sys σ
  | [], pcie, s => ([], pcie, s)
  | (lower, upper) :: rest, pcie, s =>
    let r := add_entry bus pcie lower upper s
    let t := add_entries bus rest r.2.1 r.2.2
    (r.1 :: t.1, t.2.1, t.2.2)

/-- The two banks of address-translation windows. -/
inductive Bank where
  | outbound
  | inbound
deriving DecidableEq, Repr

/-- Modelled from the spec: the capacity of a window bank, 256 for both banks
of this controller generation. -/
def bank_capacity (_bank : Bank) : Nat := PAB_WINS_NUM

/-- Modelled from the spec: a size is encodable when it is a 64-bit value that
the base size field and the extension register represent exactly. -/
def size_encodable (size : Nat) : Bool :=
  decide (size < 2 ^ 64) &&
    decide (size_decode (size_ext_field size) (size_base_field size) = size)

/-- Modelled from the spec: the valid transfer types are configuration, IO,
memory and atomic for an outbound window, memory-fetchable and
non-fetchable for an inbound window. -/
def window_type_valid : Bank → Nat → Bool
  | Bank.outbound, type =>
    decide (type = PAB_AXI_TYPE_CFG ∨ type = PAB_AXI_TYPE_IO ∨ type = PAB_AXI_TYPE_MEM ∨
      type = PAB_AXI_TYPE_ATOM)
  | Bank.inbound, type => decide (type = IB_TYPE_MEM_F ∨ type = IB_TYPE_MEM_NF)

/-- Modelled from the spec: configure_window of the window allocator is in
the driver body, not in the header. It validates the index against the bank
capacity (IndexOutOfRange), then the size (InvalidSize), then the type
(InvalidConfiguration), all before any register write; then it programs the
local base register, the size extension register, the low and high remote base
registers and last the control register (enable bit, type field, size field)
of the window through ccsr_writel. -/
def configure_window {σ : Type} (bus : Bus σ) (pcie : lx_pcie) (bank : Bank)
    (index type local_base remote_base size : Nat) (s : Sys σ) :
    Except PcieError Unit × Sys σ :=
  if ¬ index < bank_capacity bank then (Except.error PcieError.IndexOutOfRange, s)
  else if ¬ size_encodable size then (Except.error PcieError.InvalidSize, s)
  else if ¬ window_type_valid bank type then (Except.error PcieError.InvalidConfiguration, s)
  else
    match bank with
    | Bank.outbound =>
      let s := ccsr_writel bus pcie (PAB_AXI_AMAP_AXI_WIN index) local_base s
      let s := ccsr_writel bus pcie (PAB_EXT_AXI_AMAP_SIZE index) (size_ext_field size) s
      let s := ccsr_writel bus pcie (PAB_AXI_AMAP_PEX_WIN_L index) remote_base s
      let s := ccsr_writel bus pcie (PAB_AXI_AMAP_PEX_WIN_H index) (remote_base >>> 32) s
      let s := ccsr_writel bus pcie (PAB_AXI_AMAP_CTRL index)
        (AXI_AMAP_CTRL_EN ||| ((type &&& AXI_AMAP_CTRL_TYPE_MASK) <<< AXI_AMAP_CTRL_TYPE_SHIFT)
          ||| size_ctrl_bits size) s
      (Except.ok (), s)
    | Bank.inbound =>
      let s := ccsr_writel bus pcie (PAB_PEX_AMAP_AXI_WIN index) local_base s
      let s := ccsr_writel bus pcie (PAB_EXT_PEX_AMAP_SIZE index) (size_ext_field size) s
      let s := ccsr_writel bus pcie (PAB_PEX_AMAP_PEX_WIN_L index) remote_base s
      let s := ccsr_writel bus pcie (PAB_PEX_AMAP_PEX_WIN_H index) (remote_base >>> 32) s
      let s := ccsr_writel bus pcie (PAB_PEX_AMAP_CTRL index)
        (((PEX_AMAP_CTRL_EN_MASK) <<< PEX_AMAP_CTRL_EN_SHIFT)
          ||| ((type &&& PEX_AMAP_CTRL_TYPE_MASK) <<< PEX_AMAP_CTRL_TYPE_SHIFT)
          ||| size_ctrl_bits size) s
      (Except.ok (), s)

/-- The successful result of add_entry carrying index `i`. -/
def okIndex (i : Nat) : Except PcieError Int := Except.ok (Int.ofNat i)

/-- Modelled from the spec: the hardware behind the CCSR aperture is not in
the header. A register model in which the bytes below `base + 0xc00` (and from
`base + 0x1000` up) are directly mapped and the bytes of the window
`base + 0xc00 .. base + 0xfff` are backed by one store per page. -/
structure PagedRegs where
  base : Nat
  direct : ByteMem
  paged : Nat → ByteMem

/-- Whether a byte address lies in the paged window of the aperture. -/
def PagedRegs.inWindow (h : PagedRegs) (x : Nat) : Bool :=
  decide (h.base + INDIRECT_ADDR_BNDRY ≤ x ∧ x < h.base + 0x1000)

/-- The page currently selected: the page-select field of PAB_CTRL. -/
def PagedRegs.page (h : PagedRegs) : Nat :=
  (load_le32 h.direct (h.base + PAB_CTRL) >>> PAB_CTRL_PAGE_SEL_SHIFT)
    &&& PAB_CTRL_PAGE_SEL_MASK

/-- The bytes seen on the bus: window addresses show the selected page, every
other address shows the directly mapped byte. -/
def PagedRegs.view (h : PagedRegs) : ByteMem :=
  fun x => if h.inWindow x then h.paged h.page x else h.direct x

/-- A store `f` applied through the bus: bytes in the window change in the
store of the selected page, every other byte changes in the direct store. -/
def PagedRegs.update (h : PagedRegs) (f : ByteMem → ByteMem) : PagedRegs where
  base := h.base
  direct := fun x => if h.inWindow x then h.direct x else f h.direct x
  paged := fun p x => if p = h.page ∧ h.inWindow x = true then f (h.paged p) x else h.paged p x

/-- The bus whose hardware is the paged register model. -/
def pagedBus : Bus PagedRegs where
  in_le32 := fun h a => load_le32 h.view a
  out_le32 := fun h a v => h.update (fun m => store_le32 m a v)
  in_be32 := fun h a => load_be32 h.view a
  out_be32 := fun h a v => h.update (fun m => store_be32 m a v)

/-- A zeroed paged register model at base 0 with an empty access log. -/
def zeroPaged : Sys PagedRegs := ⟨⟨0, fun _ => 0, fun _ _ => 0⟩, []⟩

/-! ## Theorems -/

theorem page_mask_lt (c pg : Nat) (hc : c < 2 ^ 32) :
    ((c &&& not32 (PAB_CTRL_PAGE_SEL_MASK <<< PAB_CTRL_PAGE_SEL_SHIFT)) |||
      ((pg &&& PAB_CTRL_PAGE_SEL_MASK) <<< PAB_CTRL_PAGE_SEL_SHIFT)) < 2 ^ 32 := by
  apply Nat.or_lt_two_pow
  · exact Nat.lt_of_le_of_lt Nat.and_le_left hc
  · have h : pg &&& PAB_CTRL_PAGE_SEL_MASK ≤ 0x3f := Nat.and_le_right
    rw [Nat.shiftLeft_eq]
    simp only [PAB_CTRL_PAGE_SEL_SHIFT]
    omega

theorem u8_page_idx (pg : Nat) :
    pg % 2 ^ 8 &&& PAB_CTRL_PAGE_SEL_MASK = pg &&& PAB_CTRL_PAGE_SEL_MASK := by
  apply Nat.eq_of_testBit_eq
  intro i
  have hm : PAB_CTRL_PAGE_SEL_MASK = 2 ^ 6 - 1 := rfl
  simp only [hm, Nat.testBit_and, Nat.testBit_mod_two_pow, Nat.testBit_two_pow_sub_one]
  by_cases h : i < 6
  · have : i < 8 := by omega
    simp [h, this]
  · simp [h]

theorem ccsr_set_page_eq {σ : Type} (bus : Bus σ) (pcie : lx_pcie) (pg : Nat) (s : Sys σ) :
    ccsr_set_page bus pcie pg s =
      ⟨bus.out_le32 s.hw (pcie.ccsr + PAB_CTRL)
          ((bus.in_le32 s.hw (pcie.ccsr + PAB_CTRL) % 2 ^ 32 &&&
              not32 (PAB_CTRL_PAGE_SEL_MASK <<< PAB_CTRL_PAGE_SEL_SHIFT)) |||
            ((pg &&& PAB_CTRL_PAGE_SEL_MASK) <<< PAB_CTRL_PAGE_SEL_SHIFT)),
        s.log ++ [Access.read (pcie.ccsr + PAB_CTRL),
          Access.write (pcie.ccsr + PAB_CTRL)
            ((bus.in_le32 s.hw (pcie.ccsr + PAB_CTRL) % 2 ^ 32 &&&
                not32 (PAB_CTRL_PAGE_SEL_MASK <<< PAB_CTRL_PAGE_SEL_SHIFT)) |||
              ((pg &&& PAB_CTRL_PAGE_SEL_MASK) <<< PAB_CTRL_PAGE_SEL_SHIFT))]⟩ := by
  have hlt := page_mask_lt (bus.in_le32 s.hw (pcie.ccsr + PAB_CTRL) % 2 ^ 32) pg
    (Nat.mod_lt _ (by norm_num))
  simp only [ccsr_set_page, in_le32, out_le32, u8_page_idx, Nat.mod_eq_of_lt hlt,
    List.append_assoc, List.singleton_append]

theorem page_field_get (c pg : Nat) :
    (((c &&& not32 (PAB_CTRL_PAGE_SEL_MASK <<< PAB_CTRL_PAGE_SEL_SHIFT)) |||
      ((pg &&& PAB_CTRL_PAGE_SEL_MASK) <<< PAB_CTRL_PAGE_SEL_SHIFT))
        >>> PAB_CTRL_PAGE_SEL_SHIFT) &&& PAB_CTRL_PAGE_SEL_MASK
      = pg &&& PAB_CTRL_PAGE_SEL_MASK := by
  apply Nat.eq_of_testBit_eq
  intro i
  have hm : PAB_CTRL_PAGE_SEL_MASK = 2 ^ 6 - 1 := rfl
  simp only [hm, not32, PAB_CTRL_PAGE_SEL_SHIFT, Nat.testBit_and, Nat.testBit_or,
    Nat.testBit_xor, Nat.testBit_shiftLeft, Nat.testBit_shiftRight,
    Nat.testBit_two_pow_sub_one]
  by_cases h : i < 6
  · have h1 : 13 + i < 32 := by omega
    have h2 : 13 + i - 13 = i := by omega
    simp [h, h1, h2]
  · simp [h]

theorem page_field_frame (c pg : Nat) :
    ((c &&& not32 (PAB_CTRL_PAGE_SEL_MASK <<< PAB_CTRL_PAGE_SEL_SHIFT)) |||
      ((pg &&& PAB_CTRL_PAGE_SEL_MASK) <<< PAB_CTRL_PAGE_SEL_SHIFT))
        &&& not32 (PAB_CTRL_PAGE_SEL_MASK <<< PAB_CTRL_PAGE_SEL_SHIFT)
      = c &&& not32 (PAB_CTRL_PAGE_SEL_MASK <<< PAB_CTRL_PAGE_SEL_SHIFT) := by
  apply Nat.eq_of_testBit_eq
  intro i
  have hm : PAB_CTRL_PAGE_SEL_MASK = 2 ^ 6 - 1 := rfl
  simp only [hm, not32, PAB_CTRL_PAGE_SEL_SHIFT, Nat.testBit_and, Nat.testBit_or,
    Nat.testBit_xor, Nat.testBit_shiftLeft, Nat.testBit_two_pow_sub_one]
  by_cases h1 : 13 ≤ i
  · by_cases h2 : i - 13 < 6
    · have h3 : i < 32 := by omega
      simp [h1, h2, h3]
    · simp [h1, h2]
  · simp [h1]

theorem page_addr_eq (off : Nat) : OFFSET_TO_PAGE_ADDR off = 0xc00 + off % 0x400 := by
  have hm : PAGE_ADDR_MASK = 2 ^ 10 - 1 := rfl
  have hb : INDIRECT_ADDR_BNDRY = 2 ^ 10 * 3 := rfl
  have hlt : off % 2 ^ 10 < 2 ^ 10 := Nat.mod_lt _ (by norm_num)
  rw [OFFSET_TO_PAGE_ADDR, hm, hb, Nat.and_pow_two_sub_one_eq_mod, Nat.or_comm,
    ← Nat.mul_add_lt_is_or hlt 3]
  norm_num

theorem page_addr_ge (off : Nat) : INDIRECT_ADDR_BNDRY ≤ OFFSET_TO_PAGE_ADDR off := by
  rw [page_addr_eq, INDIRECT_ADDR_BNDRY]
  omega

theorem page_addr_lt (off : Nat) : OFFSET_TO_PAGE_ADDR off < 0x1000 := by
  rw [page_addr_eq]
  omega

theorem page_idx_le (off : Nat) : OFFSET_TO_PAGE_IDX off ≤ 0x3f := by
  unfold OFFSET_TO_PAGE_IDX
  exact Nat.and_le_right

theorem page_idx_mask (off : Nat) :
    OFFSET_TO_PAGE_IDX off &&& PAB_CTRL_PAGE_SEL_MASK = OFFSET_TO_PAGE_IDX off := by
  unfold OFFSET_TO_PAGE_IDX
  rw [Nat.and_assoc, Nat.and_self]

theorem ccsr_readl_direct {σ : Type} (bus : Bus σ) (pcie : lx_pcie) (offset : Nat)
    (s : Sys σ) (h : offset < INDIRECT_ADDR_BNDRY) :
    ccsr_readl bus pcie offset s =
      in_le32 bus (pcie.ccsr + offset) (ccsr_set_page bus pcie 0 s) := by
  have h32 : offset % 2 ^ 32 = offset :=
    Nat.mod_eq_of_lt (Nat.lt_trans h (by decide))
  unfold ccsr_readl
  simp only [h32, if_pos h]

theorem ccsr_writel_direct {σ : Type} (bus : Bus σ) (pcie : lx_pcie) (offset value : Nat)
    (s : Sys σ) (h : offset < INDIRECT_ADDR_BNDRY) :
    ccsr_writel bus pcie offset value s =
      out_le32 bus (pcie.ccsr + offset) value (ccsr_set_page bus pcie 0 s) := by
  have h32 : offset % 2 ^ 32 = offset :=
    Nat.mod_eq_of_lt (Nat.lt_trans h (by decide))
  unfold ccsr_writel
  simp only [h32, if_pos h]

theorem ccsr_readl_paged {σ : Type} (bus : Bus σ) (pcie : lx_pcie) (offset : Nat)
    (s : Sys σ) (h : INDIRECT_ADDR_BNDRY ≤ offset) (h32 : offset < 2 ^ 32) :
    ccsr_readl bus pcie offset s =
      in_le32 bus (pcie.ccsr + OFFSET_TO_PAGE_ADDR offset)
        (ccsr_set_page bus pcie (OFFSET_TO_PAGE_IDX offset) s) := by
  unfold ccsr_readl
  simp only [Nat.mod_eq_of_lt h32, if_neg (Nat.not_lt.mpr h)]

theorem ccsr_writel_paged {σ : Type} (bus : Bus σ) (pcie : lx_pcie) (offset value : Nat)
    (s : Sys σ) (h : INDIRECT_ADDR_BNDRY ≤ offset) (h32 : offset < 2 ^ 32) :
    ccsr_writel bus pcie offset value s =
      out_le32 bus (pcie.ccsr + OFFSET_TO_PAGE_ADDR offset) value
        (ccsr_set_page bus pcie (OFFSET_TO_PAGE_IDX offset) s) := by
  unfold ccsr_writel
  simp only [Nat.mod_eq_of_lt h32, if_neg (Nat.not_lt.mpr h)]

/-- C1 (counterexample): the direct read of offset 0x10 (below the boundary)
on a zeroed memory writes PAB_CTRL, and the direct write of 0x55 to offset
0x10 issues two writes, the first of them to PAB_CTRL. -/
theorem ccsr_direct_access_writes_pab_ctrl :
    0x10 < INDIRECT_ADDR_BNDRY ∧
    writesTo PAB_CTRL (ccsr_readl memBus (mkPcie 0 0 0 false) 0x10 zeroSys).2.log
      = [Access.write PAB_CTRL 0] ∧
    writes (ccsr_readl memBus (mkPcie 0 0 0 false) 0x10 zeroSys).2.log ≠ [] ∧
    writes (ccsr_writel memBus (mkPcie 0 0 0 false) 0x10 0x55 zeroSys).log
      = [Access.write PAB_CTRL 0, Access.write 0x10 0x55] ∧
    writes (ccsr_writel memBus (mkPcie 0 0 0 false) 0x10 0x55 zeroSys).log
      ≠ [Access.write 0x10 0x55] := by
  decide

/-- C1 (amended): for every offset below INDIRECT_ADDR_BNDRY, ccsr_readl and
ccsr_writel first select page 0 by one read-modify-write of PAB_CTRL (a read
giving c, then a write of c with the page-select field cleared) and then access
the directly-mapped register at ccsr + offset; these three accesses are the
whole trace, and the page-select field of the word written to PAB_CTRL is 0. -/
theorem ccsr_direct_access_trace {σ : Type} (bus : Bus σ) (pcie : lx_pcie)
    (offset value : Nat) (s : Sys σ) (h : offset < INDIRECT_ADDR_BNDRY) :
    (ccsr_readl bus pcie offset s).2.log =
      s.log ++ [Access.read (pcie.ccsr + PAB_CTRL),
        Access.write (pcie.ccsr + PAB_CTRL)
          (bus.in_le32 s.hw (pcie.ccsr + PAB_CTRL) % 2 ^ 32 &&&
            not32 (PAB_CTRL_PAGE_SEL_MASK <<< PAB_CTRL_PAGE_SEL_SHIFT)),
        Access.read (pcie.ccsr + offset)] ∧
    (ccsr_writel bus pcie offset value s).log =
      s.log ++ [Access.read (pcie.ccsr + PAB_CTRL),
        Access.write (pcie.ccsr + PAB_CTRL)
          (bus.in_le32 s.hw (pcie.ccsr + PAB_CTRL) % 2 ^ 32 &&&
            not32 (PAB_CTRL_PAGE_SEL_MASK <<< PAB_CTRL_PAGE_SEL_SHIFT)),
        Access.write (pcie.ccsr + offset) (value % 2 ^ 32)] ∧
    ((bus.in_le32 s.hw (pcie.ccsr + PAB_CTRL) % 2 ^ 32 &&&
        not32 (PAB_CTRL_PAGE_SEL_MASK <<< PAB_CTRL_PAGE_SEL_SHIFT))
      >>> PAB_CTRL_PAGE_SEL_SHIFT) &&& PAB_CTRL_PAGE_SEL_MASK = 0 := by
  have hz : (0 &&& PAB_CTRL_PAGE_SEL_MASK) <<< PAB_CTRL_PAGE_SEL_SHIFT = 0 := by decide
  have hf := page_field_get (bus.in_le32 s.hw (pcie.ccsr + PAB_CTRL) % 2 ^ 32) 0
  rw [hz, Nat.or_zero] at hf
  refine ⟨?_, ?_, ?_⟩
  · simp [ccsr_readl_direct bus pcie offset s h, ccsr_set_page_eq, in_le32, hz]
  · simp [ccsr_writel_direct bus pcie offset value s h, ccsr_set_page_eq, out_le32, hz]
  · rw [hf]
    decide

/-- C1 (witness): the direct accesses of offset 0x10 on a zeroed memory. -/
theorem ccsr_direct_access_trace_witness :
    0x10 < INDIRECT_ADDR_BNDRY ∧
    (ccsr_readl memBus (mkPcie 0 0 0 false) 0x10 zeroSys).2.log =
      [Access.read 0x808, Access.write 0x808 0, Access.read 0x10] ∧
    (ccsr_writel memBus (mkPcie 0 0 0 false) 0x10 0x55 zeroSys).log =
      [Access.read 0x808, Access.write 0x808 0, Access.write 0x10 0x55] :=
  ⟨by decide,
    (ccsr_direct_access_trace memBus (mkPcie 0 0 0 false) 0x10 0x55 zeroSys (by decide)).1,
    (ccsr_direct_access_trace memBus (mkPcie 0 0 0 false) 0x10 0x55 zeroSys (by decide)).2.1⟩

theorem page_addr_ne_pab (base off : Nat) :
    base + OFFSET_TO_PAGE_ADDR off ≠ base + PAB_CTRL := by
  have h := page_addr_ge off
  simp only [INDIRECT_ADDR_BNDRY] at h
  simp only [PAB_CTRL]
  omega

/-- C2: for every 32-bit offset at or above INDIRECT_ADDR_BNDRY the trace of
ccsr_readl is a read of PAB_CTRL, one write of PAB_CTRL and then the data read
of the in-page address, the trace of ccsr_writel is the same with the data
write of the in-page address last; PAB_CTRL is written exactly once, before the
data access, and no register other than PAB_CTRL (and, for ccsr_writel, the
in-page address) is written. -/
theorem ccsr_paged_access_trace {σ : Type} (bus : Bus σ) (pcie : lx_pcie)
    (offset value : Nat) (s : Sys σ) (h : INDIRECT_ADDR_BNDRY ≤ offset)
    (h32 : offset < 2 ^ 32) :
    let pab := pcie.ccsr + PAB_CTRL
    let data := pcie.ccsr + OFFSET_TO_PAGE_ADDR offset
    let sel := (bus.in_le32 s.hw pab % 2 ^ 32 &&&
        not32 (PAB_CTRL_PAGE_SEL_MASK <<< PAB_CTRL_PAGE_SEL_SHIFT)) |||
      (OFFSET_TO_PAGE_IDX offset <<< PAB_CTRL_PAGE_SEL_SHIFT)
    let rd := [Access.read pab, Access.write pab sel, Access.read data]
    let wr := [Access.read pab, Access.write pab sel, Access.write data (value % 2 ^ 32)]
    (ccsr_readl bus pcie offset s).2.log = s.log ++ rd ∧
    (ccsr_writel bus pcie offset value s).log = s.log ++ wr ∧
    writesTo pab rd = [Access.write pab sel] ∧
    writes rd = [Access.write pab sel] ∧
    writesTo pab wr = [Access.write pab sel] ∧
    writes wr = [Access.write pab sel, Access.write data (value % 2 ^ 32)] := by
  intro pab data sel rd wr
  have hne : data ≠ pab := page_addr_ne_pab pcie.ccsr offset
  refine ⟨?_, ?_, ?_, ?_, ?_, ?_⟩
  · simp [ccsr_readl_paged bus pcie offset s h h32, ccsr_set_page_eq, in_le32,
      page_idx_mask, rd, sel, pab, data]
  · simp [ccsr_writel_paged bus pcie offset value s h h32, ccsr_set_page_eq, out_le32,
      page_idx_mask, wr, sel, pab, data]
  · simp [writesTo, rd]
  · simp [writes, rd]
  · simp [writesTo, wr, hne]
  · simp [writes, wr]

/-- C2 (witness): the paged accesses of offset 0x1ba0 on a zeroed memory. -/
theorem ccsr_paged_access_trace_witness :
    INDIRECT_ADDR_BNDRY ≤ 0x1ba0 ∧ 0x1ba0 < 2 ^ 32 ∧
    (ccsr_readl memBus (mkPcie 0 0 0 false) 0x1ba0 zeroSys).2.log =
      [Access.read 0x808, Access.write 0x808 0xc000, Access.read 0xfa0] ∧
    (ccsr_writel memBus (mkPcie 0 0 0 false) 0x1ba0 0x55 zeroSys).log =
      [Access.read 0x808, Access.write 0x808 0xc000, Access.write 0xfa0 0x55] :=
  ⟨by decide, by decide,
    (ccsr_paged_access_trace memBus (mkPcie 0 0 0 false) 0x1ba0 0x55 zeroSys
      (by decide) (by decide)).1,
    (ccsr_paged_access_trace memBus (mkPcie 0 0 0 false) 0x1ba0 0x55 zeroSys
      (by decide) (by decide)).2.1⟩

theorem load_le32_lt (m : ByteMem) (a : Nat) : load_le32 m a < 2 ^ 32 := by
  unfold load_le32
  omega

theorem load_store_le32 (m : ByteMem) (a v : Nat) :
    load_le32 (store_le32 m a v) a = v % 2 ^ 32 := by
  simp only [load_le32, store_le32, ByteMem.set]
  have h1 : a ≠ a + 1 := by omega
  have h2 : a ≠ a + 2 := by omega
  have h3 : a ≠ a + 3 := by omega
  have h4 : a + 1 ≠ a + 2 := by omega
  have h5 : a + 1 ≠ a + 3 := by omega
  have h6 : a + 2 ≠ a + 3 := by omega
  simp only [if_neg h1, if_neg h2, if_neg h3, if_neg h4, if_neg h5, if_neg h6, if_true]
  omega

theorem store_le32_frame (m : ByteMem) (a v x : Nat) (h : x < a ∨ a + 4 ≤ x) :
    store_le32 m a v x = m x := by
  simp only [store_le32, ByteMem.set]
  have h0 : x ≠ a := by omega
  have h1 : x ≠ a + 1 := by omega
  have h2 : x ≠ a + 2 := by omega
  have h3 : x ≠ a + 3 := by omega
  simp only [if_neg h0, if_neg h1, if_neg h2, if_neg h3]

theorem load_store_le32_frame (m : ByteMem) (a b v : Nat) (h : a + 4 ≤ b ∨ b + 4 ≤ a) :
    load_le32 (store_le32 m b v) a = load_le32 m a := by
  unfold load_le32
  rw [store_le32_frame m b v a (by omega), store_le32_frame m b v (a + 1) (by omega),
    store_le32_frame m b v (a + 2) (by omega), store_le32_frame m b v (a + 3) (by omega)]

theorem ccsr_set_page_mem (pcie : lx_pcie) (pg : Nat) (s : Sys ByteMem) :
    ccsr_set_page memBus pcie pg s =
      ⟨store_le32 s.hw (pcie.ccsr + PAB_CTRL)
          ((load_le32 s.hw (pcie.ccsr + PAB_CTRL) &&&
              not32 (PAB_CTRL_PAGE_SEL_MASK <<< PAB_CTRL_PAGE_SEL_SHIFT)) |||
            ((pg &&& PAB_CTRL_PAGE_SEL_MASK) <<< PAB_CTRL_PAGE_SEL_SHIFT)),
        s.log ++ [Access.read (pcie.ccsr + PAB_CTRL),
          Access.write (pcie.ccsr + PAB_CTRL)
            ((load_le32 s.hw (pcie.ccsr + PAB_CTRL) &&&
                not32 (PAB_CTRL_PAGE_SEL_MASK <<< PAB_CTRL_PAGE_SEL_SHIFT)) |||
              ((pg &&& PAB_CTRL_PAGE_SEL_MASK) <<< PAB_CTRL_PAGE_SEL_SHIFT))]⟩ := by
  rw [ccsr_set_page_eq]
  simp only [memBus]
  rw [Nat.mod_eq_of_lt (load_le32_lt s.hw (pcie.ccsr + PAB_CTRL))]

/-- C3: on a byte-addressed memory, ccsr_set_page leaves PAB_CTRL equal to
(c & ~(0x3f << 13)) | ((pg_idx & 0x3f) << 13) for its prior content c: the bits
outside the page-select field are unchanged, the field equals pg_idx & 0x3f,
the only write is the one to PAB_CTRL, and every byte outside PAB_CTRL keeps
its value; so the bits outside the field survive any paged ccsr_readl or
ccsr_writel. -/
theorem ccsr_set_page_read_modify_write (pcie : lx_pcie) (pg_idx : Nat)
    (s : Sys ByteMem) :
    let pab := pcie.ccsr + PAB_CTRL
    let keep := not32 (PAB_CTRL_PAGE_SEL_MASK <<< PAB_CTRL_PAGE_SEL_SHIFT)
    let c := load_le32 s.hw pab
    let s1 := ccsr_set_page memBus pcie pg_idx s
    keep = 0xfff81fff ∧
    load_le32 s1.hw pab =
      (c &&& keep) ||| ((pg_idx &&& PAB_CTRL_PAGE_SEL_MASK) <<< PAB_CTRL_PAGE_SEL_SHIFT) ∧
    load_le32 s1.hw pab &&& keep = c &&& keep ∧
    (load_le32 s1.hw pab >>> PAB_CTRL_PAGE_SEL_SHIFT) &&& PAB_CTRL_PAGE_SEL_MASK
      = pg_idx &&& PAB_CTRL_PAGE_SEL_MASK ∧
    s1.log = s.log ++ [Access.read pab, Access.write pab (load_le32 s1.hw pab)] ∧
    (∀ x, x < pab ∨ pab + 4 ≤ x → s1.hw x = s.hw x) ∧
    (∀ offset value, INDIRECT_ADDR_BNDRY ≤ offset → offset < 2 ^ 32 →
      load_le32 (ccsr_readl memBus pcie offset s).2.hw pab &&& keep = c &&& keep ∧
      load_le32 (ccsr_writel memBus pcie offset value s).hw pab &&& keep = c &&& keep) := by
  intro pab keep c s1
  have hs1 : s1 = ⟨store_le32 s.hw pab
      ((c &&& keep) ||| ((pg_idx &&& PAB_CTRL_PAGE_SEL_MASK) <<< PAB_CTRL_PAGE_SEL_SHIFT)),
      s.log ++ [Access.read pab, Access.write pab
        ((c &&& keep) ||| ((pg_idx &&& PAB_CTRL_PAGE_SEL_MASK) <<< PAB_CTRL_PAGE_SEL_SHIFT))]⟩ := by
    exact ccsr_set_page_mem pcie pg_idx s
  have hload : ∀ pg, load_le32 (store_le32 s.hw pab
      ((c &&& keep) ||| ((pg &&& PAB_CTRL_PAGE_SEL_MASK) <<< PAB_CTRL_PAGE_SEL_SHIFT))) pab
      = (c &&& keep) ||| ((pg &&& PAB_CTRL_PAGE_SEL_MASK) <<< PAB_CTRL_PAGE_SEL_SHIFT) := by
    intro pg
    rw [load_store_le32]
    exact Nat.mod_eq_of_lt (page_mask_lt c pg (load_le32_lt s.hw pab))
  have hl : load_le32 s1.hw pab =
      (c &&& keep) ||| ((pg_idx &&& PAB_CTRL_PAGE_SEL_MASK) <<< PAB_CTRL_PAGE_SEL_SHIFT) := by
    rw [hs1]
    exact hload pg_idx
  refine ⟨by decide, hl, ?_, ?_, ?_, ?_, ?_⟩
  · rw [hl]
    exact page_field_frame c pg_idx
  · rw [hl]
    exact page_field_get c pg_idx
  · rw [hl, hs1]
  · intro x hx
    rw [hs1]
    exact store_le32_frame s.hw pab _ x hx
  · intro offset value h h32
    have hd := page_addr_ge offset
    simp only [INDIRECT_ADDR_BNDRY] at hd
    have hfar : pab + 4 ≤ pcie.ccsr + OFFSET_TO_PAGE_ADDR offset := by
      simp only [pab, PAB_CTRL]
      omega
    have hs2 := ccsr_set_page_mem pcie (OFFSET_TO_PAGE_IDX offset) s
    constructor
    · rw [ccsr_readl_paged memBus pcie offset s h h32, hs2]
      simp only [in_le32]
      rw [hload]
      exact page_field_frame c _
    · rw [ccsr_writel_paged memBus pcie offset value s h h32, hs2]
      simp only [out_le32, memBus]
      rw [load_store_le32_frame _ pab _ _ (Or.inl hfar), hload]
      exact page_field_frame c _

/-- C3 (witness): with 0xdeadbeef in PAB_CTRL, a paged read and a paged write
of offset 0x1ba0 leave the bits of PAB_CTRL outside the field as they were. -/
theorem ccsr_set_page_read_modify_write_witness :
    INDIRECT_ADDR_BNDRY ≤ 0x1ba0 ∧ 0x1ba0 < 2 ^ 32 ∧
    load_le32 (ccsr_readl memBus (mkPcie 0 0 0 false) 0x1ba0 patternSys).2.hw PAB_CTRL
        &&& 0xfff81fff = 0xdeadbeef &&& 0xfff81fff ∧
    load_le32 (ccsr_writel memBus (mkPcie 0 0 0 false) 0x1ba0 0x55 patternSys).hw PAB_CTRL
        &&& 0xfff81fff = 0xdeadbeef &&& 0xfff81fff :=
  ⟨by decide, by decide,
    (ccsr_set_page_read_modify_write (mkPcie 0 0 0 false) 5 patternSys).2.2.2.2.2.2
      0x1ba0 0x55 (by decide) (by decide)⟩

/-- C4: for every 32-bit offset at or above INDIRECT_ADDR_BNDRY, ccsr_readl
returns the word read at (offset & 0x3ff) | 0xc00 from the hardware in which
PAB_CTRL has been rewritten with page-select field (offset >> 10) & 0x3f, and
ccsr_writel stores value at that address of that hardware; the page and the
in-page address are OFFSET_TO_PAGE_IDX and OFFSET_TO_PAGE_ADDR of the offset. -/
theorem ccsr_paged_access_target {σ : Type} (bus : Bus σ) (pcie : lx_pcie)
    (offset value : Nat) (s : Sys σ) (h : INDIRECT_ADDR_BNDRY ≤ offset)
    (h32 : offset < 2 ^ 32) :
    let pab := pcie.ccsr + PAB_CTRL
    let page := (offset >>> 10) &&& 0x3f
    let in_page_addr := (offset &&& 0x3ff) ||| 0xc00
    let sel := (bus.in_le32 s.hw pab % 2 ^ 32 &&& not32 (0x3f <<< 13)) ||| (page <<< 13)
    let selected := bus.out_le32 s.hw pab sel
    (ccsr_readl bus pcie offset s).1
      = bus.in_le32 selected (pcie.ccsr + in_page_addr) % 2 ^ 32 ∧
    (ccsr_readl bus pcie offset s).2.hw = selected ∧
    (ccsr_writel bus pcie offset value s).hw
      = bus.out_le32 selected (pcie.ccsr + in_page_addr) (value % 2 ^ 32) ∧
    (sel >>> 13) &&& 0x3f = page ∧
    page = (offset >>> PAGE_IDX_SHIFT) &&& PAB_CTRL_PAGE_SEL_MASK ∧
    page = OFFSET_TO_PAGE_IDX offset ∧
    in_page_addr = (offset &&& PAGE_ADDR_MASK) ||| INDIRECT_ADDR_BNDRY ∧
    in_page_addr = OFFSET_TO_PAGE_ADDR offset := by
  intro pab page in_page_addr sel selected
  have hpage : page = OFFSET_TO_PAGE_IDX offset := rfl
  have haddr : in_page_addr = OFFSET_TO_PAGE_ADDR offset := rfl
  have hsel : sel = (bus.in_le32 s.hw (pcie.ccsr + PAB_CTRL) % 2 ^ 32 &&&
        not32 (PAB_CTRL_PAGE_SEL_MASK <<< PAB_CTRL_PAGE_SEL_SHIFT)) |||
      ((OFFSET_TO_PAGE_IDX offset &&& PAB_CTRL_PAGE_SEL_MASK) <<< PAB_CTRL_PAGE_SEL_SHIFT) := by
    rw [page_idx_mask]
    rfl
  have hset : ccsr_set_page bus pcie (OFFSET_TO_PAGE_IDX offset) s =
      ⟨selected, s.log ++ [Access.read pab, Access.write pab sel]⟩ := by
    rw [ccsr_set_page_eq, ← hsel]
  refine ⟨?_, ?_, ?_, ?_, rfl, hpage, rfl, haddr⟩
  · rw [ccsr_readl_paged bus pcie offset s h h32, hset, haddr]
    rfl
  · rw [ccsr_readl_paged bus pcie offset s h h32, hset]
    rfl
  · rw [ccsr_writel_paged bus pcie offset value s h h32, hset, haddr]
    rfl
  · have hg := page_field_get (bus.in_le32 s.hw (pcie.ccsr + PAB_CTRL) % 2 ^ 32)
      (OFFSET_TO_PAGE_IDX offset)
    rw [← hsel, page_idx_mask] at hg
    exact hg

/-- C4 (witness): after the paged write of 0x12345678 to offset 0x1ba0 on a
zeroed memory, the paged read of that offset returns 0x12345678, which is the
word at in-page address 0xfa0. -/
theorem ccsr_paged_access_target_witness :
    INDIRECT_ADDR_BNDRY ≤ 0x1ba0 ∧ 0x1ba0 < 2 ^ 32 ∧
    (ccsr_readl memBus (mkPcie 0 0 0 false) 0x1ba0
      (ccsr_writel memBus (mkPcie 0 0 0 false) 0x1ba0 0x12345678 zeroSys)).1
      = 0x12345678 ∧
    load_le32 (ccsr_writel memBus (mkPcie 0 0 0 false) 0x1ba0 0x12345678 zeroSys).hw 0xfa0
      = 0x12345678 :=
  ⟨by decide, by decide,
    (ccsr_paged_access_target memBus (mkPcie 0 0 0 false) 0x1ba0 0
      (ccsr_writel memBus (mkPcie 0 0 0 false) 0x1ba0 0x12345678 zeroSys)
      (by decide) (by decide)).1,
    by decide⟩

theorem load_be32_lt (m : ByteMem) (a : Nat) : load_be32 m a < 2 ^ 32 := by
  unfold load_be32
  omega

theorem store_le32_lsb (m : ByteMem) (a v : Nat) :
    storedLsbFirst (store_le32 m a v) a v := by
  simp only [storedLsbFirst, store_le32, ByteMem.set]
  have h1 : a ≠ a + 1 := by omega
  have h2 : a ≠ a + 2 := by omega
  have h3 : a ≠ a + 3 := by omega
  have h4 : a + 1 ≠ a + 2 := by omega
  have h5 : a + 1 ≠ a + 3 := by omega
  have h6 : a + 2 ≠ a + 3 := by omega
  simp only [if_neg h1, if_neg h2, if_neg h3, if_neg h4, if_neg h5, if_neg h6, if_true]
  exact ⟨trivial, trivial, trivial, trivial⟩

theorem store_be32_msb (m : ByteMem) (a v : Nat) :
    storedMsbFirst (store_be32 m a v) a v := by
  simp only [storedMsbFirst, store_be32, ByteMem.set]
  have h1 : a ≠ a + 1 := by omega
  have h2 : a ≠ a + 2 := by omega
  have h3 : a ≠ a + 3 := by omega
  have h4 : a + 1 ≠ a + 2 := by omega
  have h5 : a + 1 ≠ a + 3 := by omega
  have h6 : a + 2 ≠ a + 3 := by omega
  simp only [if_neg h1, if_neg h2, if_neg h3, if_neg h4, if_neg h5, if_neg h6, if_true]
  exact ⟨trivial, trivial, trivial, trivial⟩

theorem load_le32_of_lsb (m : ByteMem) (a v : Nat) (h : storedLsbFirst m a v) :
    load_le32 m a = v % 2 ^ 32 := by
  obtain ⟨h0, h1, h2, h3⟩ := h
  simp only [load_le32, h0, h1, h2, h3]
  omega

theorem load_be32_of_msb (m : ByteMem) (a v : Nat) (h : storedMsbFirst m a v) :
    load_be32 m a = v % 2 ^ 32 := by
  obtain ⟨h0, h1, h2, h3⟩ := h
  simp only [load_be32, h0, h1, h2, h3]
  omega

/-- C5 (counterexample): with big_endian set, ccsr_writel of 0x11223344 to
offset 0x10 stores the bytes 0x44 0x33 0x22 0x11, least-significant first. -/
theorem ccsr_writel_big_endian_stores_lsb_first :
    (mkPcie 0 0 0 true).big_endian = true ∧
    storedLsbFirst (ccsr_writel memBus (mkPcie 0 0 0 true) 0x10 0x11223344 zeroSys).hw
      0x10 0x11223344 ∧
    ¬ storedMsbFirst (ccsr_writel memBus (mkPcie 0 0 0 true) 0x10 0x11223344 zeroSys).hw
      0x10 0x11223344 := by
  decide

/-- C5 (amended): lut_writel and pf_ctrl_writel store a 32-bit value
most-significant byte first when the instance's big_endian flag is set and
least-significant byte first when it is clear, and lut_readl and pf_ctrl_readl
read with the same byte order (they return the value just written); ccsr_writel
stores least-significant byte first and ccsr_readl reads little-endian whatever
the flag is. -/
theorem accessor_byte_order (pcie : lx_pcie) (offset value : Nat) (s : Sys ByteMem)
    (ho : offset < 2 ^ 32) (hv : value < 2 ^ 32) :
    (pcie.big_endian = true →
      storedMsbFirst (lut_writel memBus pcie value offset s).hw (pcie.lut + offset) value ∧
      storedMsbFirst (pf_ctrl_writel memBus pcie offset value s).hw
        (pcie.pf_ctrl + offset) value) ∧
    (pcie.big_endian = false →
      storedLsbFirst (lut_writel memBus pcie value offset s).hw (pcie.lut + offset) value ∧
      storedLsbFirst (pf_ctrl_writel memBus pcie offset value s).hw
        (pcie.pf_ctrl + offset) value) ∧
    (lut_readl memBus pcie offset (lut_writel memBus pcie value offset s)).1 = value ∧
    (pf_ctrl_readl memBus pcie offset (pf_ctrl_writel memBus pcie offset value s)).1
      = value ∧
    storedLsbFirst (ccsr_writel memBus pcie offset value s).hw
      (ccsr_data_addr pcie offset) value ∧
    (ccsr_readl memBus pcie offset s).1
      = load_le32 (ccsr_readl memBus pcie offset s).2.hw (ccsr_data_addr pcie offset) := by
  have ho32 : offset % 2 ^ 32 = offset := Nat.mod_eq_of_lt ho
  have hv32 : value % 2 ^ 32 = value := Nat.mod_eq_of_lt hv
  refine ⟨?_, ?_, ?_, ?_, ?_, ?_⟩
  · intro hb
    simp only [lut_writel, pf_ctrl_writel, hb, if_true, out_be32, memBus, ho32, hv32]
    exact ⟨store_be32_msb _ _ _, store_be32_msb _ _ _⟩
  · intro hb
    simp only [lut_writel, pf_ctrl_writel, hb, Bool.false_eq_true, if_false, out_le32, memBus,
      ho32, hv32]
    exact ⟨store_le32_lsb _ _ _, store_le32_lsb _ _ _⟩
  · cases hb : pcie.big_endian
    · simp only [lut_readl, lut_writel, hb, Bool.false_eq_true, if_false, in_le32, out_le32,
        memBus, ho32, hv32]
      rw [Nat.mod_eq_of_lt (load_le32_lt _ _), load_le32_of_lsb _ _ _ (store_le32_lsb _ _ _), hv32]
    · simp only [lut_readl, lut_writel, hb, if_true, in_be32, out_be32, memBus, ho32, hv32]
      rw [Nat.mod_eq_of_lt (load_be32_lt _ _), load_be32_of_msb _ _ _ (store_be32_msb _ _ _), hv32]
  · cases hb : pcie.big_endian
    · simp only [pf_ctrl_readl, pf_ctrl_writel, hb, Bool.false_eq_true, if_false, in_le32,
        out_le32, memBus, ho32, hv32]
      rw [Nat.mod_eq_of_lt (load_le32_lt _ _), load_le32_of_lsb _ _ _ (store_le32_lsb _ _ _), hv32]
    · simp only [pf_ctrl_readl, pf_ctrl_writel, hb, if_true, in_be32, out_be32, memBus, ho32,
        hv32]
      rw [Nat.mod_eq_of_lt (load_be32_lt _ _), load_be32_of_msb _ _ _ (store_be32_msb _ _ _), hv32]
  · by_cases h : offset < INDIRECT_ADDR_BNDRY
    · rw [ccsr_writel_direct memBus pcie offset value s h]
      simp only [ccsr_data_addr, if_pos h, out_le32, memBus, hv32]
      exact store_le32_lsb _ _ _
    · rw [ccsr_writel_paged memBus pcie offset value s (Nat.not_lt.mp h) ho]
      simp only [ccsr_data_addr, if_neg h, out_le32, memBus, hv32]
      exact store_le32_lsb _ _ _
  · by_cases h : offset < INDIRECT_ADDR_BNDRY
    · rw [ccsr_readl_direct memBus pcie offset s h]
      simp only [ccsr_data_addr, if_pos h, in_le32, memBus]
      exact Nat.mod_eq_of_lt (load_le32_lt _ _)
    · rw [ccsr_readl_paged memBus pcie offset s (Nat.not_lt.mp h) ho]
      simp only [ccsr_data_addr, if_neg h, in_le32, memBus]
      exact Nat.mod_eq_of_lt (load_le32_lt _ _)

/-- C5 (witness): a big-endian instance writing 0x11223344 to LUT offset 0x804
stores it most-significant byte first and reads it back. -/
theorem accessor_byte_order_witness :
    0x804 < 2 ^ 32 ∧ 0x11223344 < 2 ^ 32 ∧
    storedMsbFirst (lut_writel memBus (mkPcie 0 0x10000 0x20000 true) 0x11223344 0x804
      zeroSys).hw 0x10804 0x11223344 ∧
    (lut_readl memBus (mkPcie 0 0x10000 0x20000 true) 0x804
      (lut_writel memBus (mkPcie 0 0x10000 0x20000 true) 0x11223344 0x804 zeroSys)).1
      = 0x11223344 :=
  ⟨by decide, by decide,
    ((accessor_byte_order (mkPcie 0 0x10000 0x20000 true) 0x804 0x11223344 zeroSys
      (by decide) (by decide)).1 rfl).1,
    (accessor_byte_order (mkPcie 0 0x10000 0x20000 true) 0x804 0x11223344 zeroSys
      (by decide) (by decide)).2.2.1⟩

theorem winreg_offset_inj (r r' : WinReg) (i j : Nat) (hi : i < PAB_WINS_NUM)
    (hj : j < PAB_WINS_NUM) (h : r.offset i = r'.offset j) : r = r' ∧ i = j := by
  simp only [PAB_WINS_NUM] at hi hj
  cases r <;> cases r' <;>
    simp only [WinReg.offset, PAB_AXI_AMAP_CTRL, PAB_AXI_AMAP_AXI_WIN, PAB_AXI_AMAP_PEX_WIN_L,
      PAB_AXI_AMAP_PEX_WIN_H, PAB_EXT_AXI_AMAP_AXI_WIN, PAB_EXT_AXI_AMAP_SIZE,
      PAB_AXI_AMAP_PCI_HDR_PARAM, PAB_PEX_AMAP_CTRL, PAB_PEX_AMAP_AXI_WIN,
      PAB_PEX_AMAP_PEX_WIN_L, PAB_PEX_AMAP_PEX_WIN_H, PAB_EXT_PEX_AMAP_AXI_WIN,
      PAB_EXT_PEX_AMAP_SIZE] at h <;>
    first
      | exact ⟨rfl, by omega⟩
      | (exfalso; omega)

/-- C6: for window indices i, j below PAB_WINS_NUM, the seven register offsets
of outbound window i and the six of inbound window j are pairwise distinct, and
over all thirteen register families an offset determines both its family and
its index: offsets of different families never coincide, whatever the indices,
and offsets of one family coincide only for equal indices. -/
theorem window_register_offsets_distinct (i j : Nat) (hi : i < PAB_WINS_NUM)
    (hj : j < PAB_WINS_NUM) :
    (outboundRegs i ++ inboundRegs j).Nodup ∧
    (∀ r r' : WinReg, r.offset i = r'.offset j → r = r' ∧ i = j) ∧
    (∀ a ∈ outboundRegs i, ∀ b ∈ inboundRegs j, a ≠ b) ∧
    (i ≠ j → (∀ a ∈ outboundRegs i, ∀ b ∈ outboundRegs j, a ≠ b) ∧
      (∀ a ∈ inboundRegs i, ∀ b ∈ inboundRegs j, a ≠ b)) := by
  have hi' : i < 256 := hi
  have hj' : j < 256 := hj
  refine ⟨?_, fun r r' h => winreg_offset_inj r r' i j hi hj h, ?_, ?_⟩
  · simp only [outboundRegs, inboundRegs, PAB_AXI_AMAP_CTRL, PAB_AXI_AMAP_AXI_WIN,
      PAB_AXI_AMAP_PEX_WIN_L, PAB_AXI_AMAP_PEX_WIN_H, PAB_EXT_AXI_AMAP_AXI_WIN,
      PAB_EXT_AXI_AMAP_SIZE, PAB_AXI_AMAP_PCI_HDR_PARAM, PAB_PEX_AMAP_CTRL,
      PAB_PEX_AMAP_AXI_WIN, PAB_PEX_AMAP_PEX_WIN_L, PAB_PEX_AMAP_PEX_WIN_H,
      PAB_EXT_PEX_AMAP_AXI_WIN, PAB_EXT_PEX_AMAP_SIZE, List.cons_append, List.nil_append,
      List.nodup_cons, List.mem_cons, List.mem_singleton, List.not_mem_nil, or_false,
      not_or, List.nodup_nil, and_true]
    repeat' apply And.intro
    all_goals first | omega | exact not_false
  · simp only [outboundRegs, inboundRegs, PAB_AXI_AMAP_CTRL, PAB_AXI_AMAP_AXI_WIN,
      PAB_AXI_AMAP_PEX_WIN_L, PAB_AXI_AMAP_PEX_WIN_H, PAB_EXT_AXI_AMAP_AXI_WIN,
      PAB_EXT_AXI_AMAP_SIZE, PAB_AXI_AMAP_PCI_HDR_PARAM, PAB_PEX_AMAP_CTRL,
      PAB_PEX_AMAP_AXI_WIN, PAB_PEX_AMAP_PEX_WIN_L, PAB_PEX_AMAP_PEX_WIN_H,
      PAB_EXT_PEX_AMAP_AXI_WIN, PAB_EXT_PEX_AMAP_SIZE, List.mem_cons, List.mem_singleton,
      List.not_mem_nil, or_false]
    intro a ha b hb
    omega
  · intro hne
    simp only [outboundRegs, inboundRegs, PAB_AXI_AMAP_CTRL, PAB_AXI_AMAP_AXI_WIN,
      PAB_AXI_AMAP_PEX_WIN_L, PAB_AXI_AMAP_PEX_WIN_H, PAB_EXT_AXI_AMAP_AXI_WIN,
      PAB_EXT_AXI_AMAP_SIZE, PAB_AXI_AMAP_PCI_HDR_PARAM, PAB_PEX_AMAP_CTRL,
      PAB_PEX_AMAP_AXI_WIN, PAB_PEX_AMAP_PEX_WIN_L, PAB_PEX_AMAP_PEX_WIN_H,
      PAB_EXT_PEX_AMAP_AXI_WIN, PAB_EXT_PEX_AMAP_SIZE, List.mem_cons, List.mem_singleton,
      List.not_mem_nil, or_false]
    constructor
    · intro a ha b hb
      omega
    · intro a ha b hb
      omega

/-- C6 (witness): the registers of outbound window 255 and inbound window 0. -/
theorem window_register_offsets_distinct_witness :
    255 < PAB_WINS_NUM ∧ 0 < PAB_WINS_NUM ∧ (outboundRegs 255 ++ inboundRegs 0).Nodup :=
  ⟨by decide, by decide,
    (window_register_offsets_distinct 255 0 (by decide) (by decide)).1⟩

/-- C7: for every 64-bit size that is a multiple of 1 KiB, decoding the base
size field and the extension register recovers the size; the base field has 22
bits and sits at bits 10..31 of the control register, the extension fits in 32
bits; in particular the round trip holds for 8 KiB, 1 MiB, 4 GiB and 1 TiB. -/
theorem size_round_trip (size : Nat) (h64 : size < 2 ^ 64) (hk : size % 1024 = 0) :
    size_decode (size_ext_field size) (size_base_field size) = size ∧
    size_base_field size < 2 ^ 22 ∧
    size_ctrl_bits size < 2 ^ 32 ∧ size_ctrl_bits size % 2 ^ 10 = 0 ∧
    size_ext_field size < 2 ^ 32 ∧
    (PCIE_BAR_SIZE = 8 * 2 ^ 10 ∧
      size_decode (size_ext_field PCIE_BAR_SIZE) (size_base_field PCIE_BAR_SIZE)
        = PCIE_BAR_SIZE) ∧
    (SIZE_1M = 2 ^ 20 ∧
      size_decode (size_ext_field SIZE_1M) (size_base_field SIZE_1M) = SIZE_1M) ∧
    (CONFIG_SYS_PCI_MEMORY_SIZE = 4 * 2 ^ 30 ∧
      size_decode (size_ext_field CONFIG_SYS_PCI_MEMORY_SIZE)
        (size_base_field CONFIG_SYS_PCI_MEMORY_SIZE) = CONFIG_SYS_PCI_MEMORY_SIZE) ∧
    (SIZE_1T = 2 ^ 40 ∧
      size_decode (size_ext_field SIZE_1T) (size_base_field SIZE_1T) = SIZE_1T) := by
  have hm : AXI_AMAP_CTRL_SIZE_MASK = 2 ^ 22 - 1 := rfl
  have hbase : size_base_field size < 2 ^ 22 := by
    unfold size_base_field
    exact Nat.lt_of_le_of_lt Nat.and_le_right (by decide)
  have hlow : ∀ i, i < 10 → size.testBit i = false := by
    intro i hi
    have h := Nat.testBit_mod_two_pow size 10 i
    have hk' : size % 2 ^ 10 = 0 := hk
    rw [hk', Nat.zero_testBit] at h
    simpa [hi] using h.symm
  refine ⟨?_, hbase, ?_, ?_, ?_, by decide, by decide, by decide, by decide⟩
  · apply Nat.eq_of_testBit_eq
    intro i
    simp only [size_decode, size_ext_field, size_base_field, hm, AXI_AMAP_CTRL_SIZE_SHIFT,
      Nat.testBit_or, Nat.testBit_and, Nat.testBit_shiftLeft, Nat.testBit_shiftRight,
      Nat.testBit_two_pow_sub_one]
    by_cases h32 : 32 ≤ i
    · have e : 32 + (i - 32) = i := by omega
      have e2 : 10 + (i - 10) = i := by omega
      have g : 10 ≤ i := by omega
      have l : ¬ (i - 10 < 22) := by omega
      simp [h32, e, e2, g, l]
    · by_cases h10 : 10 ≤ i
      · have e : 10 + (i - 10) = i := by omega
        have l : i - 10 < 22 := by omega
        simp [h32, h10, e, l]
      · simp [h32, h10, hlow i (by omega)]
  · simp only [size_ctrl_bits, AXI_AMAP_CTRL_SIZE_SHIFT, Nat.shiftLeft_eq]
    omega
  · simp only [size_ctrl_bits, AXI_AMAP_CTRL_SIZE_SHIFT, Nat.shiftLeft_eq]
    omega
  · simp only [size_ext_field, Nat.shiftRight_eq_div_pow]
    omega

/-- C7 (witness): the round trip of 1 TiB plus 8 KiB, whose base field is 8 and
whose extension is 256. -/
theorem size_round_trip_witness :
    SIZE_1T + PCIE_BAR_SIZE < 2 ^ 64 ∧ (SIZE_1T + PCIE_BAR_SIZE) % 1024 = 0 ∧
    size_decode (size_ext_field (SIZE_1T + PCIE_BAR_SIZE))
      (size_base_field (SIZE_1T + PCIE_BAR_SIZE)) = SIZE_1T + PCIE_BAR_SIZE :=
  ⟨by decide, by decide,
    (size_round_trip (SIZE_1T + PCIE_BAR_SIZE) (by decide) (by decide)).1⟩

/-- C8 (counterexample): at entry 0 the lower register PCIE_LUT_LDR is at
0x804, not at the base 0x800, and the upper register PCIE_LUT_UDR is at 0x800,
not at 0x804. -/
theorem lut_ldr_udr_not_as_claimed :
    0 < PCIE_LUT_ENTRY_COUNT ∧ PCIE_LUT_LDR 0 ≠ 0x800 + 8 * 0 ∧
    PCIE_LUT_UDR 0 ≠ 0x800 + 8 * 0 + 4 := by
  decide

/-- C8 (amended): for every routing-table index n, PCIE_LUT_UDR(n) is at
0x800 + 8*n and PCIE_LUT_LDR(n) is at 0x800 + 8*n + 4, where 0x800 is the
offset of the first routing-table register, and PCIE_LUT_ENABLE is bit 31. -/
theorem lut_register_offsets (n : Nat) :
    PCIE_LUT_UDR n = 0x800 + 8 * n ∧ PCIE_LUT_LDR n = 0x800 + 8 * n + 4 ∧
    PCIE_LUT_ENABLE = 2 ^ 31 ∧ PCIE_LUT_ENTRY_COUNT = 32 := by
  refine ⟨?_, ?_, by decide, rfl⟩
  · simp only [PCIE_LUT_UDR]
    omega
  · simp only [PCIE_LUT_LDR]
    omega

/-- C9: on BARs 0 to 3 and any functions, so in particular functions 0 and 1,
PAB_PEX_BAR_AMAP and PAB_EXT_PEX_BAR_AMAP are injective in the pair
(function, BAR), and each is base + 0x20 * function + 4 * BAR. -/
theorem vf_bar_offset_injective (f f' b b' : Nat) (hb : b < BAR_NUM)
    (hb' : b' < BAR_NUM) :
    (PAB_PEX_BAR_AMAP f b = PAB_PEX_BAR_AMAP f' b' → (f, b) = (f', b')) ∧
    (PAB_EXT_PEX_BAR_AMAP f b = PAB_EXT_PEX_BAR_AMAP f' b' → (f, b) = (f', b')) ∧
    PAB_PEX_BAR_AMAP f b = 0x1ba0 + 0x20 * f + 4 * b ∧
    PAB_EXT_PEX_BAR_AMAP f b = 0x84a0 + 0x20 * f + 4 * b := by
  simp only [BAR_NUM] at hb hb'
  refine ⟨?_, ?_, rfl, rfl⟩
  · simp only [PAB_PEX_BAR_AMAP, Prod.mk.injEq]
    intro h
    omega
  · simp only [PAB_EXT_PEX_BAR_AMAP, Prod.mk.injEq]
    intro h
    omega

/-- C9 (witness): function 1 with BAR 0 and function 0 with BAR 3 are distinct
pairs in the domain, so their offsets differ. -/
theorem vf_bar_offset_injective_witness :
    1 < PCIE_PF_NUM ∧ 0 < PCIE_PF_NUM ∧ 0 < BAR_NUM ∧ 3 < BAR_NUM ∧
    PAB_PEX_BAR_AMAP 1 0 ≠ PAB_PEX_BAR_AMAP 0 3 :=
  ⟨by decide, by decide, by decide, by decide,
    fun h => absurd
      ((vf_bar_offset_injective 1 0 0 3 (by decide) (by decide)).1 h)
      (by decide)⟩

/-- C10: for total and initial VF counts up to 65535 the packed register word
fits in 32 bits and reading back its TTL_VF and INI_VF fields recovers (total,
initial); the word lives at 0x644 + 4 * func, distinct for functions 0 and 1. -/
theorem vf_counts_round_trip (total initial : Nat) (ht : total ≤ 65535)
    (hi : initial ≤ 65535) :
    vf_counts_word total initial < 2 ^ 32 ∧
    vf_counts_total (vf_counts_word total initial) = total ∧
    vf_counts_initial (vf_counts_word total initial) = initial ∧
    (∀ func, GPEX_SRIOV_INIT_VFS_TOTAL_VF func = 0x644 + 4 * func) ∧
    GPEX_SRIOV_INIT_VFS_TOTAL_VF 0 ≠ GPEX_SRIOV_INIT_VFS_TOTAL_VF 1 := by
  have hm : (0xffff : Nat) = 2 ^ 16 - 1 := rfl
  have ht' : total < 2 ^ 16 := by omega
  have hi' : initial < 2 ^ 16 := by omega
  have hw : vf_counts_word total initial = 2 ^ 16 * total + initial := by
    simp only [vf_counts_word, TTL_VF_MASK, TTL_VF_SHIFT, INI_VF_MASK, INI_VF_SHIFT, hm,
      Nat.and_pow_two_sub_one_of_lt_two_pow ht', Nat.and_pow_two_sub_one_of_lt_two_pow hi',
      Nat.shiftLeft_zero, Nat.shiftLeft_eq, Nat.pow_zero, Nat.mul_one]
    rw [Nat.mul_comm total, Nat.mul_add_lt_is_or hi']
  refine ⟨?_, ?_, ?_, ?_, by decide⟩
  · rw [hw]
    omega
  · simp only [vf_counts_total, TTL_VF_MASK, TTL_VF_SHIFT, hm, hw,
      Nat.and_pow_two_sub_one_eq_mod, Nat.shiftRight_eq_div_pow]
    omega
  · simp only [vf_counts_initial, INI_VF_MASK, INI_VF_SHIFT, hm, hw,
      Nat.and_pow_two_sub_one_eq_mod, Nat.shiftRight_zero]
    omega
  · intro func
    simp only [GPEX_SRIOV_INIT_VFS_TOTAL_VF]
    omega

/-- C10 (witness): total 32 and initial 4 pack to 0x200004 and read back. -/
theorem vf_counts_round_trip_witness :
    32 ≤ 65535 ∧ 4 ≤ 65535 ∧ vf_counts_word 32 4 = 0x200004 ∧
    vf_counts_total (vf_counts_word 32 4) = 32 ∧
    vf_counts_initial (vf_counts_word 32 4) = 4 :=
  ⟨by decide, by decide, by decide,
    (vf_counts_round_trip 32 4 (by decide) (by decide)).2.1,
    (vf_counts_round_trip 32 4 (by decide) (by decide)).2.2.1⟩

/-- C11: for every word of remaining bits and every speed s <= 0xf and width
w <= 0x3f, a raw status word carrying s at bits 16..19 and w at bits 20..25
decodes to speed s and width w whatever the remaining bits are; the word fits
in 32 bits when the remaining bits do, and the two fields do not overlap. -/
theorem link_status_decode (other s w : Nat) (hs : s ≤ 0xf) (hw : w ≤ 0x3f) :
    link_speed (link_status_word other s w) = s ∧
    link_width (link_status_word other s w) = w ∧
    link_speed (link_status_word other s w)
      = (link_status_word other s w >>> 16) &&& 0xf ∧
    link_width (link_status_word other s w)
      = (link_status_word other s w >>> 20) &&& 0x3f ∧
    (other < 2 ^ 32 → link_status_word other s w < 2 ^ 32) ∧
    (PCIE_LINK_SPEED_MASK <<< PCIE_LINK_SPEED_SHIFT) &&&
      (PCIE_LINK_WIDTH_MASK <<< PCIE_LINK_WIDTH_SHIFT) = 0 := by
  have hms : PCIE_LINK_SPEED_MASK = 2 ^ 4 - 1 := rfl
  have hmw : PCIE_LINK_WIDTH_MASK = 2 ^ 6 - 1 := rfl
  have hs4 : s < 2 ^ 4 := by omega
  have hw6 : w < 2 ^ 6 := by omega
  have hsb : ∀ i, 4 ≤ i → s.testBit i = false := fun i hi =>
    Nat.testBit_lt_two_pow (Nat.lt_of_lt_of_le hs4 (Nat.pow_le_pow_right (by norm_num) hi))
  have hwb : ∀ i, 6 ≤ i → w.testBit i = false := fun i hi =>
    Nat.testBit_lt_two_pow (Nat.lt_of_lt_of_le hw6 (Nat.pow_le_pow_right (by norm_num) hi))
  have hspeed : link_speed (link_status_word other s w) = s := by
    apply Nat.eq_of_testBit_eq
    intro i
    simp only [link_speed, link_status_word, not32, hms, hmw, PCIE_LINK_SPEED_SHIFT,
      PCIE_LINK_WIDTH_SHIFT, Nat.testBit_and, Nat.testBit_or, Nat.testBit_xor,
      Nat.testBit_shiftLeft, Nat.testBit_shiftRight, Nat.testBit_two_pow_sub_one]
    by_cases h : i < 4
    · have h1 : 16 + i - 16 = i := by omega
      have h2 : ¬ (20 ≤ 16 + i) := by omega
      have h3 : 16 + i < 32 := by omega
      simp [h, h1, h2, h3]
    · simp [h, hsb i (by omega)]
  have hwidth : link_width (link_status_word other s w) = w := by
    apply Nat.eq_of_testBit_eq
    intro i
    simp only [link_width, link_status_word, not32, hms, hmw, PCIE_LINK_SPEED_SHIFT,
      PCIE_LINK_WIDTH_SHIFT, Nat.testBit_and, Nat.testBit_or, Nat.testBit_xor,
      Nat.testBit_shiftLeft, Nat.testBit_shiftRight, Nat.testBit_two_pow_sub_one]
    by_cases h : i < 6
    · have h1 : 20 + i - 20 = i := by omega
      have h2 : 20 + i - 16 = 4 + i := by omega
      have h3 : 20 + i < 32 := by omega
      simp [h, h1, h2, h3, hsb (4 + i) (by omega)]
    · simp [h, hwb i (by omega)]
  refine ⟨hspeed, hwidth, rfl, rfl, ?_, by decide⟩
  intro ho
  unfold link_status_word
  apply Nat.or_lt_two_pow
  · apply Nat.or_lt_two_pow
    · exact Nat.lt_of_le_of_lt Nat.and_le_left ho
    · rw [Nat.shiftLeft_eq]
      simp only [PCIE_LINK_SPEED_SHIFT]
      omega
  · rw [Nat.shiftLeft_eq]
    simp only [PCIE_LINK_WIDTH_SHIFT]
    omega

/-- C11 (witness): speed 0x4 and width 0x10 inside the word 0xffffffff. -/
theorem link_status_decode_witness :
    0x4 ≤ 0xf ∧ 0x10 ≤ 0x3f ∧
    link_status_word 0xffffffff 0x4 0x10 = 0xfd04ffff ∧
    link_speed (link_status_word 0xffffffff 0x4 0x10) = 0x4 ∧
    link_width (link_status_word 0xffffffff 0x4 0x10) = 0x10 :=
  ⟨by decide, by decide, by decide,
    (link_status_decode 0xffffffff 0x4 0x10 (by decide) (by decide)).1,
    (link_status_decode 0xffffffff 0x4 0x10 (by decide) (by decide)).2.1⟩

/-- C12: for every bus <= 0xff, device <= 0x1f and function <= 0x7 the word
PAB_TARGET_BUS(bus) | PAB_TARGET_DEV(device) | PAB_TARGET_FUNC(function) fits
in 32 bits, has its low 16 bits zero and gives back the triple as word >> 24,
(word >> 19) & 0x1f and (word >> 16) & 0x7, so the word determines the triple;
the three fields occupy pairwise disjoint bits. -/
theorem target_word_packing (bus device function : Nat) (hb : bus ≤ 0xff)
    (hd : device ≤ 0x1f) (hf : function ≤ 0x7) :
    target_word bus device function < 2 ^ 32 ∧
    target_word bus device function % 2 ^ 16 = 0 ∧
    target_word bus device function >>> 24 = bus ∧
    (target_word bus device function >>> 19) &&& 0x1f = device ∧
    (target_word bus device function >>> 16) &&& 0x7 = function ∧
    (∀ bus' device' function', bus' ≤ 0xff → device' ≤ 0x1f → function' ≤ 0x7 →
      target_word bus' device' function' = target_word bus device function →
      bus' = bus ∧ device' = device ∧ function' = function) ∧
    (0xff <<< 24) &&& (0x1f <<< 19) = 0 ∧ (0xff <<< 24) &&& (0x7 <<< 16) = 0 ∧
    (0x1f <<< 19) &&& (0x7 <<< 16) = 0 := by
  have key : ∀ b d f, b ≤ 0xff → d ≤ 0x1f → f ≤ 0x7 →
      target_word b d f = 2 ^ 24 * b + 2 ^ 19 * d + 2 ^ 16 * f := by
    intro b d f hb hd hf
    have hb8 : b < 2 ^ 8 := by omega
    have hd5 : d < 2 ^ 5 := by omega
    have hf3 : f < 2 ^ 3 := by omega
    have e8 : (0xff : Nat) = 2 ^ 8 - 1 := rfl
    have e5 : (0x1f : Nat) = 2 ^ 5 - 1 := rfl
    have e3 : (0x7 : Nat) = 2 ^ 3 - 1 := rfl
    have l1 : 2 ^ 19 * d < 2 ^ 24 := by omega
    have l2 : 2 ^ 16 * f < 2 ^ 19 := by omega
    have l3 : 2 ^ 19 * d + 2 ^ 16 * f < 2 ^ 24 := by omega
    have s1 : 2 ^ 19 * d ||| 2 ^ 16 * f = 2 ^ 19 * d + 2 ^ 16 * f :=
      (Nat.mul_add_lt_is_or l2 d).symm
    simp only [target_word, PAB_TARGET_BUS, PAB_TARGET_DEV, PAB_TARGET_FUNC, e8, e5, e3,
      Nat.and_pow_two_sub_one_of_lt_two_pow hb8, Nat.and_pow_two_sub_one_of_lt_two_pow hd5,
      Nat.and_pow_two_sub_one_of_lt_two_pow hf3, Nat.shiftLeft_eq]
    rw [Nat.mul_comm b, Nat.mul_comm d, Nat.mul_comm f, Nat.or_assoc, s1,
      ← Nat.mul_add_lt_is_or l3 b, Nat.add_assoc]
  have hw := key bus device function hb hd hf
  have e5 : (0x1f : Nat) = 2 ^ 5 - 1 := rfl
  have e3 : (0x7 : Nat) = 2 ^ 3 - 1 := rfl
  refine ⟨?_, ?_, ?_, ?_, ?_, ?_, by decide, by decide, by decide⟩
  · rw [hw]
    omega
  · rw [hw]
    omega
  · rw [hw, Nat.shiftRight_eq_div_pow]
    omega
  · rw [hw, e5, Nat.and_pow_two_sub_one_eq_mod, Nat.shiftRight_eq_div_pow]
    omega
  · rw [hw, e3, Nat.and_pow_two_sub_one_eq_mod, Nat.shiftRight_eq_div_pow]
    omega
  · intro b d f hb' hd' hf' h
    rw [hw, key b d f hb' hd' hf'] at h
    omega

/-- C12 (witness): bus 0xff, device 0x1f and function 0x7 pack to 0xffff0000. -/
theorem target_word_packing_witness :
    0xff ≤ 0xff ∧ 0x1f ≤ 0x1f ∧ 0x7 ≤ 0x7 ∧ target_word 0xff 0x1f 0x7 = 0xffff0000 ∧
    target_word 0xff 0x1f 0x7 >>> 24 = 0xff ∧
    (target_word 0xff 0x1f 0x7 >>> 19) &&& 0x1f = 0x1f ∧
    (target_word 0xff 0x1f 0x7 >>> 16) &&& 0x7 = 0x7 :=
  ⟨by decide, by decide, by decide, by decide,
    (target_word_packing 0xff 0x1f 0x7 (by decide) (by decide) (by decide)).2.2.1,
    (target_word_packing 0xff 0x1f 0x7 (by decide) (by decide) (by decide)).2.2.2.1,
    (target_word_packing 0xff 0x1f 0x7 (by decide) (by decide) (by decide)).2.2.2.2.1⟩

/-- C13: for BAR numbers b, b' below BAR_NUM the indices of the four families
(PF0 BARs from 0, PF1 BARs from PF1_BAR_OFFSET, PF0 VF BARs from
PF0_VF_BAR_OFFSET, PF1 VF BARs from PF1_VF_BAR_OFFSET) coincide only for the
same family and the same BAR, every index is below 16, every number below 16 is
the index of some BAR of some family, and each family advances by one index per
BAR. -/
theorem bar_index_families_partition (b b' : Nat) (hb : b < BAR_NUM) (hb' : b' < BAR_NUM) :
    (∀ fam fam' : BarFamily, fam.index b = fam'.index b' → fam = fam' ∧ b = b') ∧
    (∀ fam : BarFamily, fam.index b < 16) ∧
    (∀ n, n < 16 → ∃ fam : BarFamily, ∃ c, c < BAR_NUM ∧ fam.index c = n) ∧
    (∀ fam : BarFamily, fam.index (b + 1) = fam.index b + 1) ∧
    BarFamily.pf0.index b = b ∧
    BarFamily.pf1.index b = PF1_BAR_OFFSET + b ∧
    BarFamily.pf0_vf.index b = PF0_VF_BAR_OFFSET + b ∧
    BarFamily.pf1_vf.index b = PF1_VF_BAR_OFFSET + b := by
  simp only [BAR_NUM] at hb hb'
  refine ⟨?_, ?_, ?_, ?_, ?_, rfl, rfl, rfl⟩
  · intro fam fam' h
    cases fam <;> cases fam' <;>
      simp only [BarFamily.index, BarFamily.base, PF1_BAR_OFFSET, PF0_VF_BAR_OFFSET,
        PF1_VF_BAR_OFFSET] at h <;>
      first
        | exact ⟨rfl, by omega⟩
        | (exfalso; omega)
  · intro fam
    cases fam <;>
      simp only [BarFamily.index, BarFamily.base, PF1_BAR_OFFSET, PF0_VF_BAR_OFFSET,
        PF1_VF_BAR_OFFSET] <;> omega
  · intro n hn
    by_cases h4 : n < 4
    · exact ⟨.pf0, n, h4, by simp [BarFamily.index, BarFamily.base]⟩
    · by_cases h8 : n < 8
      · refine ⟨.pf1, n - 4, by simp only [BAR_NUM]; omega, ?_⟩
        simp only [BarFamily.index, BarFamily.base, PF1_BAR_OFFSET]
        omega
      · by_cases h12 : n < 12
        · refine ⟨.pf0_vf, n - 8, by simp only [BAR_NUM]; omega, ?_⟩
          simp only [BarFamily.index, BarFamily.base, PF0_VF_BAR_OFFSET]
          omega
        · refine ⟨.pf1_vf, n - 12, by simp only [BAR_NUM]; omega, ?_⟩
          simp only [BarFamily.index, BarFamily.base, PF1_VF_BAR_OFFSET]
          omega
  · intro fam
    simp only [BarFamily.index]
    omega
  · simp [BarFamily.index, BarFamily.base]

/-- C13 (witness): BAR 3 of PF0 has index 3 and BAR 0 of PF1 has index 4, so
the last index of one family and the first of the next do not meet. -/
theorem bar_index_families_partition_witness :
    3 < BAR_NUM ∧ 0 < BAR_NUM ∧ BarFamily.pf0.index 3 ≠ BarFamily.pf1.index 0 ∧
    BarFamily.pf1_vf.index 3 < 16 :=
  ⟨by decide, by decide,
    fun h => absurd
      ((bar_index_families_partition 3 0 (by decide) (by decide)).1 .pf0 .pf1 h).1
      (by decide),
    (bar_index_families_partition 3 0 (by decide) (by decide)).2.1 .pf1_vf⟩

theorem page_idx_eq (off : Nat) : OFFSET_TO_PAGE_IDX off = off / 0x400 % 0x40 := by
  have hm : PAB_CTRL_PAGE_SEL_MASK = 2 ^ 6 - 1 := rfl
  rw [OFFSET_TO_PAGE_IDX, hm, Nat.and_pow_two_sub_one_eq_mod, PAGE_IDX_SHIFT,
    Nat.shiftRight_eq_div_pow]

theorem page_recompose_eq (off : Nat) :
    (OFFSET_TO_PAGE_IDX off <<< PAGE_IDX_SHIFT) ||| (OFFSET_TO_PAGE_ADDR off &&& PAGE_ADDR_MASK)
      = 0x400 * (off / 0x400 % 0x40) + off % 0x400 := by
  have hm : PAGE_ADDR_MASK = 2 ^ 10 - 1 := rfl
  have hlt : (0xc00 + off % 0x400) % 2 ^ 10 < 2 ^ 10 := Nat.mod_lt _ (by norm_num)
  rw [page_idx_eq, page_addr_eq, hm, Nat.and_pow_two_sub_one_eq_mod, PAGE_IDX_SHIFT,
    Nat.shiftLeft_eq, Nat.mul_comm, ← Nat.mul_add_lt_is_or hlt]
  omega

/-- C18: for every offset from 0xc00 up to below 0x10000 the page index shifted
back and joined with the low ten bits of the in-page address is the offset, so
distinct offsets of that range have distinct (page, in-page address) pairs;
every indexed register-offset macro of the header at an index below 256 lies
below 0x10000, none above PAB_EXT_PEX_AMAP_SIZE(255) = 0xc2ec; and an offset
and the offset plus 0x10000 have the same (page, in-page address) pair. -/
theorem page_decomposition_lossless (offset : Nat) :
    (INDIRECT_ADDR_BNDRY ≤ offset → offset < 0x10000 →
      (OFFSET_TO_PAGE_IDX offset <<< PAGE_IDX_SHIFT) |||
        (OFFSET_TO_PAGE_ADDR offset &&& PAGE_ADDR_MASK) = offset) ∧
    (∀ offset', INDIRECT_ADDR_BNDRY ≤ offset → offset < 0x10000 →
      INDIRECT_ADDR_BNDRY ≤ offset' → offset' < 0x10000 →
      OFFSET_TO_PAGE_IDX offset = OFFSET_TO_PAGE_IDX offset' →
      OFFSET_TO_PAGE_ADDR offset = OFFSET_TO_PAGE_ADDR offset' → offset = offset') ∧
    (OFFSET_TO_PAGE_IDX (offset + 0x10000) = OFFSET_TO_PAGE_IDX offset ∧
      OFFSET_TO_PAGE_ADDR (offset + 0x10000) = OFFSET_TO_PAGE_ADDR offset) ∧
    (OFFSET_TO_PAGE_IDX ((offset + 0x10000) % 2 ^ 32) = OFFSET_TO_PAGE_IDX offset ∧
      OFFSET_TO_PAGE_ADDR ((offset + 0x10000) % 2 ^ 32) = OFFSET_TO_PAGE_ADDR offset) ∧
    PAB_EXT_PEX_AMAP_SIZE 255 = 0xc2ec ∧
    (∀ idx, idx < PAB_WINS_NUM →
      (∀ r : WinReg, r.offset idx ≤ 0xc2ec ∧ r.offset idx < 0x10000) ∧
      (∀ x ∈ [PCIE_LUT_UDR idx, PCIE_LUT_LDR idx, GPEX_SRIOV_INIT_VFS_TOTAL_VF idx,
          GPEX_SRIOV_VF_OFFSET_STRIDE idx, PAB_AXI_PIO_CTRL idx, PAB_AXI_PIO_STAT idx,
          PAB_AXI_PIO_SL_CMD_STAT idx, PAB_AXI_PIO_SL_ADDR_STAT idx,
          PAB_AXI_PIO_SL_EXT_ADDR_STAT idx, PAB_PEX_PIO_CTRL idx, PAB_PEX_PIO_STAT idx,
          PAB_PEX_PIO_MT_STAT idx], x ≤ 0xc2ec ∧ x < 0x10000) ∧
      (∀ bar, bar < PAB_WINS_NUM →
        PAB_PEX_BAR_AMAP idx bar ≤ 0xc2ec ∧ PAB_EXT_PEX_BAR_AMAP idx bar ≤ 0xc2ec)) := by
  refine ⟨?_, ?_, ⟨?_, ?_⟩, ⟨?_, ?_⟩, by decide, ?_⟩
  · intro h1 h2
    rw [page_recompose_eq]
    omega
  · intro offset' h1 h2 h3 h4 hi ha
    rw [page_idx_eq, page_idx_eq] at hi
    rw [page_addr_eq, page_addr_eq] at ha
    omega
  · rw [page_idx_eq, page_idx_eq]
    omega
  · rw [page_addr_eq, page_addr_eq]
    omega
  · rw [page_idx_eq, page_idx_eq]
    omega
  · rw [page_addr_eq, page_addr_eq]
    omega
  · intro idx hidx
    simp only [PAB_WINS_NUM] at hidx
    refine ⟨?_, ?_, ?_⟩
    · intro r
      cases r <;>
        simp only [WinReg.offset, PAB_AXI_AMAP_CTRL, PAB_AXI_AMAP_AXI_WIN,
          PAB_AXI_AMAP_PEX_WIN_L, PAB_AXI_AMAP_PEX_WIN_H, PAB_EXT_AXI_AMAP_AXI_WIN,
          PAB_EXT_AXI_AMAP_SIZE, PAB_AXI_AMAP_PCI_HDR_PARAM, PAB_PEX_AMAP_CTRL,
          PAB_PEX_AMAP_AXI_WIN, PAB_PEX_AMAP_PEX_WIN_L, PAB_PEX_AMAP_PEX_WIN_H,
          PAB_EXT_PEX_AMAP_AXI_WIN, PAB_EXT_PEX_AMAP_SIZE] <;> omega
    · intro x hx
      simp only [PCIE_LUT_UDR, PCIE_LUT_LDR, GPEX_SRIOV_INIT_VFS_TOTAL_VF,
        GPEX_SRIOV_VF_OFFSET_STRIDE, PAB_AXI_PIO_CTRL, PAB_AXI_PIO_STAT,
        PAB_AXI_PIO_SL_CMD_STAT, PAB_AXI_PIO_SL_ADDR_STAT, PAB_AXI_PIO_SL_EXT_ADDR_STAT,
        PAB_PEX_PIO_CTRL, PAB_PEX_PIO_STAT, PAB_PEX_PIO_MT_STAT, List.mem_cons,
        List.mem_singleton, List.not_mem_nil, or_false] at hx
      omega
    · intro bar hbar
      simp only [PAB_WINS_NUM] at hbar
      simp only [PAB_PEX_BAR_AMAP, PAB_EXT_PEX_BAR_AMAP]
      omega

/-- C18 (witness): offset 0xc2ec is page 0x30 with in-page address 0xeec and is
recovered from them; index 255 keeps every window register below 0x10000. -/
theorem page_decomposition_lossless_witness :
    INDIRECT_ADDR_BNDRY ≤ 0xc2ec ∧ 0xc2ec < 0x10000 ∧ 255 < PAB_WINS_NUM ∧
    OFFSET_TO_PAGE_IDX 0xc2ec = 0x30 ∧ OFFSET_TO_PAGE_ADDR 0xc2ec = 0xeec ∧
    (OFFSET_TO_PAGE_IDX 0xc2ec <<< PAGE_IDX_SHIFT) |||
      (OFFSET_TO_PAGE_ADDR 0xc2ec &&& PAGE_ADDR_MASK) = 0xc2ec ∧
    WinReg.EXT_PEX_AMAP_SIZE.offset 255 < 0x10000 :=
  ⟨by decide, by decide, by decide, by decide, by decide,
    (page_decomposition_lossless 0xc2ec).1 (by decide) (by decide),
    (((page_decomposition_lossless 0xc2ec).2.2.2.2.2 255 (by decide)).1
      WinReg.EXT_PEX_AMAP_SIZE).2⟩

/-- C19: for every offset the in-page address OFFSET_TO_PAGE_ADDR lies in
0xc00..0xfff, so it is outside the directly-mapped region and its four bytes
start after PAB_CTRL; the page index OFFSET_TO_PAGE_IDX is at most 0x3f, so the
u8 parameter of ccsr_set_page keeps it whole, and the word that ccsr_set_page
writes to PAB_CTRL for it has page-select field (offset >> 10) & 0x3f. -/
theorem paged_access_address_and_page_bounds {σ : Type} (bus : Bus σ) (pcie : lx_pcie)
    (s : Sys σ) (offset : Nat) :
    INDIRECT_ADDR_BNDRY ≤ OFFSET_TO_PAGE_ADDR offset ∧
    OFFSET_TO_PAGE_ADDR offset ≤ 0xfff ∧
    OFFSET_TO_PAGE_ADDR offset ≠ PAB_CTRL ∧
    PAB_CTRL + 4 ≤ OFFSET_TO_PAGE_ADDR offset ∧
    OFFSET_TO_PAGE_IDX offset ≤ 0x3f ∧
    OFFSET_TO_PAGE_IDX offset % 2 ^ 8 = OFFSET_TO_PAGE_IDX offset ∧
    (∃ w, (ccsr_set_page bus pcie (OFFSET_TO_PAGE_IDX offset) s).log =
        s.log ++ [Access.read (pcie.ccsr + PAB_CTRL), Access.write (pcie.ccsr + PAB_CTRL) w] ∧
      (w >>> PAB_CTRL_PAGE_SEL_SHIFT) &&& PAB_CTRL_PAGE_SEL_MASK = (offset >>> 10) &&& 0x3f) := by
  have hge := page_addr_ge offset
  have hlt := page_addr_lt offset
  have hle := page_idx_le offset
  simp only [INDIRECT_ADDR_BNDRY] at hge
  refine ⟨page_addr_ge offset, by omega, ?_, ?_, hle, Nat.mod_eq_of_lt (by omega), ?_⟩
  · simp only [PAB_CTRL]
    omega
  · simp only [PAB_CTRL]
    omega
  · refine ⟨_, by rw [ccsr_set_page_eq], ?_⟩
    rw [page_field_get, page_idx_mask]
    rfl

/-- C20: PAB_PEX_BAR_AMAP and PAB_EXT_PEX_BAR_AMAP are injective in
(function, BAR) for functions 0 and 1 and BARs 0 to 7, but not for BARs up to
15: function 0 with BAR PF0_VF_BAR_OFFSET = 8 and function 1 with BAR 0 have
the same offset, 0x1bc0 for PAB_PEX_BAR_AMAP and 0x84c0 for
PAB_EXT_PEX_BAR_AMAP. -/
theorem vf_bar_offset_collision :
    (∀ f f' b b', f < PCIE_PF_NUM → f' < PCIE_PF_NUM → b < 8 → b' < 8 →
      PAB_PEX_BAR_AMAP f b = PAB_PEX_BAR_AMAP f' b' → (f, b) = (f', b')) ∧
    (∀ f f' b b', f < PCIE_PF_NUM → f' < PCIE_PF_NUM → b < 8 → b' < 8 →
      PAB_EXT_PEX_BAR_AMAP f b = PAB_EXT_PEX_BAR_AMAP f' b' → (f, b) = (f', b')) ∧
    (∀ f b, PAB_PEX_BAR_AMAP f b = 0x1ba0 + 0x20 * f + 4 * b) ∧
    PF0_VF_BAR_OFFSET < 16 ∧ (0, PF0_VF_BAR_OFFSET) ≠ (1, 0) ∧
    PAB_PEX_BAR_AMAP 0 PF0_VF_BAR_OFFSET = PAB_PEX_BAR_AMAP 1 0 ∧
    PAB_PEX_BAR_AMAP 1 0 = 0x1bc0 ∧
    PAB_EXT_PEX_BAR_AMAP 0 8 = PAB_EXT_PEX_BAR_AMAP 1 0 ∧
    PAB_EXT_PEX_BAR_AMAP 1 0 = 0x84c0 := by
  refine ⟨?_, ?_, fun _ _ => rfl, by decide, by decide, by decide, by decide, by decide,
    by decide⟩
  · intro f f' b b' _ _ hb hb' h
    simp only [PAB_PEX_BAR_AMAP] at h
    simp only [Prod.mk.injEq]
    omega
  · intro f f' b b' _ _ hb hb' h
    simp only [PAB_EXT_PEX_BAR_AMAP] at h
    simp only [Prod.mk.injEq]
    omega

/-- C20 (witness): function 0 with BAR 7 and function 1 with BAR 0 are in the
injective range, so their offsets differ. -/
theorem vf_bar_offset_collision_witness :
    0 < PCIE_PF_NUM ∧ 1 < PCIE_PF_NUM ∧ 7 < 8 ∧ 0 < 8 ∧
    PAB_PEX_BAR_AMAP 0 7 ≠ PAB_PEX_BAR_AMAP 1 0 :=
  ⟨by decide, by decide, by decide, by decide,
    fun h => absurd
      (vf_bar_offset_collision.1 0 1 7 0 (by decide) (by decide) (by decide) (by decide) h)
      (by decide)⟩

theorem store_store_le32 (m : ByteMem) (a v w : Nat) :
    store_le32 (store_le32 m a v) a w = store_le32 m a w := by
  funext x
  simp only [store_le32, ByteMem.set]
  by_cases h3 : x = a + 3
  · simp only [if_pos h3]
  · by_cases h2 : x = a + 2
    · simp only [if_neg h3, if_pos h2]
    · by_cases h1 : x = a + 1
      · simp only [if_neg h3, if_neg h2, if_pos h1]
      · by_cases h0 : x = a
        · simp only [if_neg h3, if_neg h2, if_neg h1, if_pos h0]
        · simp only [if_neg h3, if_neg h2, if_neg h1, if_neg h0]

theorem ccsr_set_page_mem_hw (pcie : lx_pcie) (pg : Nat) (s : Sys ByteMem) :
    (ccsr_set_page memBus pcie pg s).hw =
      store_le32 s.hw (pcie.ccsr + PAB_CTRL)
        ((load_le32 s.hw (pcie.ccsr + PAB_CTRL) &&&
            not32 (PAB_CTRL_PAGE_SEL_MASK <<< PAB_CTRL_PAGE_SEL_SHIFT)) |||
          ((pg &&& PAB_CTRL_PAGE_SEL_MASK) <<< PAB_CTRL_PAGE_SEL_SHIFT)) := by
  rw [ccsr_set_page_mem]

theorem ccsr_set_page_mem_twice (pcie : lx_pcie) (p q : Nat) (s t : Sys ByteMem)
    (ht : t.hw = (ccsr_set_page memBus pcie p s).hw) :
    (ccsr_set_page memBus pcie q t).hw = (ccsr_set_page memBus pcie q s).hw := by
  rw [ccsr_set_page_mem_hw pcie q t, ht, ccsr_set_page_mem_hw pcie p s,
    ccsr_set_page_mem_hw pcie q s, load_store_le32,
    Nat.mod_eq_of_lt (page_mask_lt _ p (load_le32_lt s.hw _)), page_field_frame,
    store_store_le32]

theorem add_entry_ok {σ : Type} (bus : Bus σ) (pcie : lx_pcie) (lower upper k : Nat)
    (s : Sys σ) (hk : pcie.next_lut_index = (k : Int)) (hlt : k < PCIE_LUT_ENTRY_COUNT) :
    (add_entry bus pcie lower upper s).1 = okIndex k ∧
    (add_entry bus pcie lower upper s).2.1.next_lut_index = ((k + 1 : Nat) : Int) := by
  have hn : ¬ pcie.next_lut_index ≥ (PCIE_LUT_ENTRY_COUNT : Int) := by
    rw [hk]
    simp only [PCIE_LUT_ENTRY_COUNT] at hlt ⊢
    omega
  unfold add_entry
  rw [if_neg hn]
  simp only [hk]
  exact ⟨rfl, by push_cast; rfl⟩

theorem add_entry_full {σ : Type} (bus : Bus σ) (pcie : lx_pcie) (lower upper : Nat)
    (s : Sys σ) (hk : pcie.next_lut_index = (PCIE_LUT_ENTRY_COUNT : Int)) :
    add_entry bus pcie lower upper s = (Except.error PcieError.CapacityExceeded, pcie, s) := by
  have hn : pcie.next_lut_index ≥ (PCIE_LUT_ENTRY_COUNT : Int) := by
    rw [hk]
  unfold add_entry
  simp only [if_pos hn]

theorem add_entries_run {σ : Type} (bus : Bus σ) (entries : List (Nat × Nat)) :
    ∀ (pcie : lx_pcie) (s : Sys σ) (k : Nat), pcie.next_lut_index = (k : Int) →
      k + entries.length ≤ PCIE_LUT_ENTRY_COUNT →
      (add_entries bus entries pcie s).1
        = (List.range' k entries.length).map okIndex ∧
      (add_entries bus entries pcie s).2.1.next_lut_index
        = ((k + entries.length : Nat) : Int) := by
  induction entries with
  | nil =>
    intro pcie s k hk _
    exact ⟨rfl, by simpa [add_entries] using hk⟩
  | cons e rest ih =>
    intro pcie s k hk hlen
    obtain ⟨lower, upper⟩ := e
    simp only [List.length_cons] at hlen
    have hlt : k < PCIE_LUT_ENTRY_COUNT := by omega
    obtain ⟨h1, h2⟩ := add_entry_ok bus pcie lower upper k s hk hlt
    obtain ⟨h3, h4⟩ := ih (add_entry bus pcie lower upper s).2.1
      (add_entry bus pcie lower upper s).2.2 (k + 1) h2 (by omega)
    constructor
    · simp only [add_entries, List.length_cons, List.range'_succ, List.map_cons, h1, h3]
    · simp only [add_entries, List.length_cons, h4]
      congr 1
      omega

/-- C14: starting from a controller instance with next_lut_index = 0, add_entry
called 32 times (once for each of any 32 bound pairs) succeeds each time and
returns the indices 0, 1, ..., 31 in this order, and the 33rd call, with any
bounds, fails with CapacityExceeded and leaves the instance, the hardware and
the access log as they were. -/
theorem add_entry_capacity {σ : Type} (bus : Bus σ) (pcie : lx_pcie) (s : Sys σ)
    (entries : List (Nat × Nat)) (h0 : pcie.next_lut_index = 0)
    (hlen : entries.length = PCIE_LUT_ENTRY_COUNT) :
    (add_entries bus entries pcie s).1
      = (List.range 32).map okIndex ∧
    (∀ lower upper,
      add_entry bus (add_entries bus entries pcie s).2.1 lower upper
          (add_entries bus entries pcie s).2.2
        = (Except.error PcieError.CapacityExceeded, (add_entries bus entries pcie s).2.1,
            (add_entries bus entries pcie s).2.2)) := by
  obtain ⟨h1, h2⟩ := add_entries_run bus entries pcie s 0 (by simpa using h0) (by omega)
  constructor
  · rw [h1, hlen, List.range_eq_range']
    rfl
  · intro lower upper
    apply add_entry_full
    rw [h2, hlen]
    simp

/-- C14 (witness): 32 entries added to a fresh instance on a zeroed memory get
the indices 0 to 31, and one more add_entry fails with CapacityExceeded. -/
theorem add_entry_capacity_witness :
    (mkPcie 0 0x10000 0x20000 false).next_lut_index = 0 ∧
    (List.replicate 32 (0x10, 0x20)).length = PCIE_LUT_ENTRY_COUNT ∧
    (add_entries memBus (List.replicate 32 (0x10, 0x20)) (mkPcie 0 0x10000 0x20000 false)
      zeroSys).1 = (List.range 32).map okIndex ∧
    (add_entry memBus
      (add_entries memBus (List.replicate 32 (0x10, 0x20)) (mkPcie 0 0x10000 0x20000 false)
        zeroSys).2.1 0x30 0x40
      (add_entries memBus (List.replicate 32 (0x10, 0x20)) (mkPcie 0 0x10000 0x20000 false)
        zeroSys).2.2).1 = Except.error PcieError.CapacityExceeded :=
  ⟨rfl, rfl,
    (add_entry_capacity memBus (mkPcie 0 0x10000 0x20000 false) zeroSys
      (List.replicate 32 (0x10, 0x20)) rfl rfl).1,
    congrArg Prod.fst
      ((add_entry_capacity memBus (mkPcie 0 0x10000 0x20000 false) zeroSys
        (List.replicate 32 (0x10, 0x20)) rfl rfl).2 0x30 0x40)⟩

/-- C15: configure_window with index PAB_WINS_NUM = 256, the bank capacity,
fails with IndexOutOfRange for either bank and every type, base and size, and
leaves the hardware and the access log as they were; with index 255 it
succeeds for either bank whenever the size is encodable and the type is valid
for the bank. -/
theorem configure_window_index_bound {σ : Type} (bus : Bus σ) (pcie : lx_pcie)
    (bank : Bank) (type local_base remote_base size : Nat) (s : Sys σ) :
    bank_capacity bank = 256 ∧
    configure_window bus pcie bank (bank_capacity bank) type local_base remote_base size s
      = (Except.error PcieError.IndexOutOfRange, s) ∧
    (size_encodable size = true → window_type_valid bank type = true →
      (configure_window bus pcie bank (bank_capacity bank - 1) type local_base remote_base
        size s).1 = Except.ok ()) := by
  refine ⟨rfl, ?_, ?_⟩
  · unfold configure_window
    rw [if_pos (Nat.lt_irrefl _)]
  · intro hs ht
    have hi : ¬ ¬ bank_capacity bank - 1 < bank_capacity bank := by
      simp only [bank_capacity, PAB_WINS_NUM]
      omega
    have hs' : ¬ ¬ size_encodable size = true := not_not_intro hs
    have ht' : ¬ ¬ window_type_valid bank type = true := not_not_intro ht
    unfold configure_window
    rw [if_neg hi, if_neg hs', if_neg ht']
    cases bank <;> rfl

/-- C15 (witness): an outbound memory window of 1 TiB at index 255 is
configured, and the same request at index 256 fails with IndexOutOfRange. -/
theorem configure_window_index_bound_witness :
    size_encodable SIZE_1T = true ∧
    window_type_valid Bank.outbound PAB_AXI_TYPE_MEM = true ∧
    (configure_window memBus (mkPcie 0 0 0 false) Bank.outbound 255 PAB_AXI_TYPE_MEM
      0x8000000000 0x40000000 SIZE_1T zeroSys).1 = Except.ok () ∧
    configure_window memBus (mkPcie 0 0 0 false) Bank.outbound 256 PAB_AXI_TYPE_MEM
      0x8000000000 0x40000000 SIZE_1T zeroSys
      = (Except.error PcieError.IndexOutOfRange, zeroSys) :=
  ⟨by decide, by decide,
    (configure_window_index_bound memBus (mkPcie 0 0 0 false) Bank.outbound PAB_AXI_TYPE_MEM
      0x8000000000 0x40000000 SIZE_1T zeroSys).2.2 (by decide) (by decide),
    (configure_window_index_bound memBus (mkPcie 0 0 0 false) Bank.outbound PAB_AXI_TYPE_MEM
      0x8000000000 0x40000000 SIZE_1T zeroSys).2.1⟩

theorem load_le32_congr (m m' : ByteMem) (a : Nat)
    (h : ∀ i, i < 4 → m (a + i) = m' (a + i)) : load_le32 m a = load_le32 m' a := by
  have h0 := h 0 (by omega)
  have h1 := h 1 (by omega)
  have h2 := h 2 (by omega)
  have h3 := h 3 (by omega)
  simp only [Nat.add_zero] at h0
  simp only [load_le32, h0, h1, h2, h3]

theorem inWindow_false (h : PagedRegs) (x : Nat)
    (hx : x < h.base + 0xc00 ∨ h.base + 0x1000 ≤ x) : h.inWindow x = false := by
  simp only [PagedRegs.inWindow, INDIRECT_ADDR_BNDRY, decide_eq_false_iff_not]
  omega

theorem inWindow_true (h : PagedRegs) (x : Nat)
    (hx : h.base + 0xc00 ≤ x ∧ x < h.base + 0x1000) : h.inWindow x = true := by
  simp only [PagedRegs.inWindow, INDIRECT_ADDR_BNDRY, decide_eq_true_eq]
  omega

theorem paged_view_outside (h : PagedRegs) (a : Nat)
    (ha : a + 4 ≤ h.base + 0xc00 ∨ h.base + 0x1000 ≤ a) :
    load_le32 h.view a = load_le32 h.direct a := by
  apply load_le32_congr
  intro i hi
  simp only [PagedRegs.view, inWindow_false h (a + i) (by omega), Bool.false_eq_true, if_false]

theorem paged_view_inside (h : PagedRegs) (a : Nat)
    (ha : h.base + 0xc00 ≤ a ∧ a + 4 ≤ h.base + 0x1000) :
    load_le32 h.view a = load_le32 (h.paged h.page) a := by
  apply load_le32_congr
  intro i hi
  simp only [PagedRegs.view, inWindow_true h (a + i) (by omega), if_true]

theorem paged_store_direct_same (h : PagedRegs) (a v : Nat)
    (ha : a + 4 ≤ h.base + 0xc00 ∨ h.base + 0x1000 ≤ a) :
    load_le32 (h.update (fun m => store_le32 m a v)).direct a = v % 2 ^ 32 := by
  rw [← load_store_le32 h.direct a v]
  apply load_le32_congr
  intro i hi
  simp only [PagedRegs.update, inWindow_false h (a + i) (by omega), Bool.false_eq_true,
    if_false]

theorem paged_store_direct_other (h : PagedRegs) (a b v : Nat)
    (hb : b + 4 ≤ h.base + 0xc00 ∨ h.base + 0x1000 ≤ b) (hab : a + 4 ≤ b ∨ b + 4 ≤ a) :
    load_le32 (h.update (fun m => store_le32 m a v)).direct b = load_le32 h.direct b := by
  apply load_le32_congr
  intro i hi
  simp only [PagedRegs.update, inWindow_false h (b + i) (by omega), Bool.false_eq_true,
    if_false]
  exact store_le32_frame h.direct a v (b + i) (by omega)

theorem paged_store_page_same (h : PagedRegs) (a v : Nat)
    (ha : h.base + 0xc00 ≤ a ∧ a + 4 ≤ h.base + 0x1000) :
    load_le32 ((h.update (fun m => store_le32 m a v)).paged h.page) a = v % 2 ^ 32 := by
  rw [← load_store_le32 (h.paged h.page) a v]
  apply load_le32_congr
  intro i hi
  simp only [PagedRegs.update, inWindow_true h (a + i) (by omega), and_self, if_true]

theorem paged_store_page_other (h : PagedRegs) (a b v p : Nat)
    (hab : a + 4 ≤ b ∨ b + 4 ≤ a) :
    load_le32 ((h.update (fun m => store_le32 m a v)).paged p) b
      = load_le32 (h.paged p) b := by
  apply load_le32_congr
  intro i hi
  simp only [PagedRegs.update]
  by_cases hc : p = h.page ∧ h.inWindow (b + i) = true
  · rw [if_pos hc]
    exact store_le32_frame (h.paged p) a v (b + i) (by omega)
  · rw [if_neg hc]

theorem paged_page_of_pab (h : PagedRegs) (w : Nat)
    (hw : load_le32 h.direct (h.base + PAB_CTRL) = w) :
    h.page = (w >>> PAB_CTRL_PAGE_SEL_SHIFT) &&& PAB_CTRL_PAGE_SEL_MASK := by
  rw [PagedRegs.page, hw]

theorem ccsr_set_page_paged (pcie : lx_pcie) (pg : Nat) (t : Sys PagedRegs)
    (hbase : pcie.ccsr = t.hw.base) :
    (ccsr_set_page pagedBus pcie pg t).hw =
      t.hw.update (fun m => store_le32 m (t.hw.base + PAB_CTRL)
        ((load_le32 t.hw.direct (t.hw.base + PAB_CTRL) &&&
            not32 (PAB_CTRL_PAGE_SEL_MASK <<< PAB_CTRL_PAGE_SEL_SHIFT)) |||
          ((pg &&& PAB_CTRL_PAGE_SEL_MASK) <<< PAB_CTRL_PAGE_SEL_SHIFT))) := by
  have hout : t.hw.base + PAB_CTRL + 4 ≤ t.hw.base + 0xc00 ∨
      t.hw.base + 0x1000 ≤ t.hw.base + PAB_CTRL := by
    simp only [PAB_CTRL]
    omega
  rw [ccsr_set_page_eq, hbase]
  simp only [pagedBus]
  rw [paged_view_outside t.hw _ hout, Nat.mod_eq_of_lt (load_le32_lt _ _)]

theorem set_page_paged_base (pcie : lx_pcie) (pg : Nat) (t : Sys PagedRegs)
    (hbase : pcie.ccsr = t.hw.base) :
    (ccsr_set_page pagedBus pcie pg t).hw.base = t.hw.base := by
  rw [ccsr_set_page_paged pcie pg t hbase]
  rfl

theorem set_page_paged_pab (pcie : lx_pcie) (pg : Nat) (t : Sys PagedRegs)
    (hbase : pcie.ccsr = t.hw.base) :
    load_le32 (ccsr_set_page pagedBus pcie pg t).hw.direct (t.hw.base + PAB_CTRL) =
      (load_le32 t.hw.direct (t.hw.base + PAB_CTRL) &&&
          not32 (PAB_CTRL_PAGE_SEL_MASK <<< PAB_CTRL_PAGE_SEL_SHIFT)) |||
        ((pg &&& PAB_CTRL_PAGE_SEL_MASK) <<< PAB_CTRL_PAGE_SEL_SHIFT) := by
  have hout : t.hw.base + PAB_CTRL + 4 ≤ t.hw.base + 0xc00 ∨
      t.hw.base + 0x1000 ≤ t.hw.base + PAB_CTRL := by
    simp only [PAB_CTRL]
    omega
  rw [ccsr_set_page_paged pcie pg t hbase, paged_store_direct_same t.hw _ _ hout]
  exact Nat.mod_eq_of_lt (page_mask_lt _ pg (load_le32_lt _ _))

theorem set_page_paged_page (pcie : lx_pcie) (pg : Nat) (t : Sys PagedRegs)
    (hbase : pcie.ccsr = t.hw.base) :
    (ccsr_set_page pagedBus pcie pg t).hw.page = pg &&& PAB_CTRL_PAGE_SEL_MASK := by
  have hb := set_page_paged_base pcie pg t hbase
  have hp := set_page_paged_pab pcie pg t hbase
  rw [← hb] at hp
  rw [paged_page_of_pab _ _ hp, page_field_get]

theorem set_page_paged_direct (pcie : lx_pcie) (pg b : Nat) (t : Sys PagedRegs)
    (hbase : pcie.ccsr = t.hw.base)
    (hb : b + 4 ≤ t.hw.base + PAB_CTRL ∨
      (t.hw.base + PAB_CTRL + 4 ≤ b ∧ b + 4 ≤ t.hw.base + 0xc00)) :
    load_le32 (ccsr_set_page pagedBus pcie pg t).hw.direct b = load_le32 t.hw.direct b := by
  simp only [PAB_CTRL] at hb
  rw [ccsr_set_page_paged pcie pg t hbase]
  apply paged_store_direct_other
  · omega
  · simp only [PAB_CTRL]
    omega

theorem set_page_paged_window (pcie : lx_pcie) (pg p b : Nat) (t : Sys PagedRegs)
    (hbase : pcie.ccsr = t.hw.base) (hb : t.hw.base + 0xc00 ≤ b) :
    load_le32 ((ccsr_set_page pagedBus pcie pg t).hw.paged p) b
      = load_le32 (t.hw.paged p) b := by
  rw [ccsr_set_page_paged pcie pg t hbase]
  apply paged_store_page_other
  simp only [PAB_CTRL]
  omega

theorem pagedBus_in_le32 (h : PagedRegs) (a : Nat) :
    pagedBus.in_le32 h a = load_le32 h.view a := rfl

theorem pagedBus_out_le32 (h : PagedRegs) (a v : Nat) :
    pagedBus.out_le32 h a v = h.update (fun m => store_le32 m a v) := rfl

/-- C17: on the paged register model (bytes below 0xc00 directly mapped, the
window 0xc00..0xfff backed by the page selected in PAB_CTRL bits 13..18), for
every 4-byte-aligned 32-bit offset other than PAB_CTRL and every 32-bit value,
ccsr_writel followed by ccsr_readl of the same offset returns the value; for
the offset PAB_CTRL the read returns value & ~(0x3f << 13). -/
theorem ccsr_write_read_round_trip (pcie : lx_pcie) (offset value : Nat)
    (s : Sys PagedRegs) (hbase : pcie.ccsr = s.hw.base) (h32 : offset < 2 ^ 32)
    (hal : offset % 4 = 0) (hv : value < 2 ^ 32) :
    (offset ≠ PAB_CTRL →
      (ccsr_readl pagedBus pcie offset (ccsr_writel pagedBus pcie offset value s)).1
        = value) ∧
    (offset = PAB_CTRL →
      (ccsr_readl pagedBus pcie offset (ccsr_writel pagedBus pcie offset value s)).1
        = value &&& not32 (PAB_CTRL_PAGE_SEL_MASK <<< PAB_CTRL_PAGE_SEL_SHIFT)) := by
  have hv32 : value % 2 ^ 32 = value := Nat.mod_eq_of_lt hv
  by_cases hd : offset < INDIRECT_ADDR_BNDRY
  · -- direct access
    have hd' : offset < 0xc00 := hd
    have hb1 := set_page_paged_base pcie 0 s hbase
    have hw : (ccsr_writel pagedBus pcie offset value s).hw =
        (ccsr_set_page pagedBus pcie 0 s).hw.update
          (fun m => store_le32 m (s.hw.base + offset) value) := by
      rw [ccsr_writel_direct pagedBus pcie offset value s hd, hbase]
      simp only [out_le32, pagedBus_out_le32, hv32]
    have hb2 : (ccsr_writel pagedBus pcie offset value s).hw.base = s.hw.base := by
      rw [hw]
      exact hb1
    have hbase2 : pcie.ccsr = (ccsr_writel pagedBus pcie offset value s).hw.base := by
      rw [hb2]
      exact hbase
    have hb3 := set_page_paged_base pcie 0 _ hbase2
    have hres : (ccsr_readl pagedBus pcie offset (ccsr_writel pagedBus pcie offset value s)).1
        = load_le32 (ccsr_set_page pagedBus pcie 0
            (ccsr_writel pagedBus pcie offset value s)).hw.direct (s.hw.base + offset) := by
      rw [ccsr_readl_direct pagedBus pcie offset _ hd, hbase]
      simp only [in_le32, pagedBus_in_le32]
      rw [Nat.mod_eq_of_lt (load_le32_lt _ _)]
      apply paged_view_outside
      rw [hb3, hb2]
      omega
    have hstore : load_le32 (ccsr_writel pagedBus pcie offset value s).hw.direct
        (s.hw.base + offset) = value := by
      rw [hw, paged_store_direct_same _ _ _ (by rw [hb1]; omega), hv32]
    constructor
    · intro hne
      simp only [PAB_CTRL] at hne
      rw [hres, set_page_paged_direct pcie 0 _ _ hbase2
        (by rw [hb2]; simp only [PAB_CTRL]; omega), hstore]
    · intro he
      subst he
      have hp := set_page_paged_pab pcie 0 _ hbase2
      rw [hb2, hstore] at hp
      have hz : (0 &&& PAB_CTRL_PAGE_SEL_MASK) <<< PAB_CTRL_PAGE_SEL_SHIFT = 0 := by decide
      rw [hres, hp, hz, Nat.or_zero]
  · -- paged access
    have hge : INDIRECT_ADDR_BNDRY ≤ offset := Nat.not_lt.mp hd
    have hge' : 0xc00 ≤ offset := hge
    have hpa := page_addr_eq offset
    have hin : s.hw.base + 0xc00 ≤ s.hw.base + OFFSET_TO_PAGE_ADDR offset ∧
        s.hw.base + OFFSET_TO_PAGE_ADDR offset + 4 ≤ s.hw.base + 0x1000 := by
      rw [hpa]
      omega
    have hb1 := set_page_paged_base pcie (OFFSET_TO_PAGE_IDX offset) s hbase
    have hp1 := set_page_paged_page pcie (OFFSET_TO_PAGE_IDX offset) s hbase
    rw [page_idx_mask] at hp1
    have hw : (ccsr_writel pagedBus pcie offset value s).hw =
        (ccsr_set_page pagedBus pcie (OFFSET_TO_PAGE_IDX offset) s).hw.update
          (fun m => store_le32 m (s.hw.base + OFFSET_TO_PAGE_ADDR offset) value) := by
      rw [ccsr_writel_paged pagedBus pcie offset value s hge h32, hbase]
      simp only [out_le32, pagedBus_out_le32, hv32]
    have hb2 : (ccsr_writel pagedBus pcie offset value s).hw.base = s.hw.base := by
      rw [hw]
      exact hb1
    have hbase2 : pcie.ccsr = (ccsr_writel pagedBus pcie offset value s).hw.base := by
      rw [hb2]
      exact hbase
    have hb3 := set_page_paged_base pcie (OFFSET_TO_PAGE_IDX offset) _ hbase2
    have hp3 := set_page_paged_page pcie (OFFSET_TO_PAGE_IDX offset) _ hbase2
    rw [page_idx_mask] at hp3
    have hres : (ccsr_readl pagedBus pcie offset (ccsr_writel pagedBus pcie offset value s)).1
        = load_le32 ((ccsr_set_page pagedBus pcie (OFFSET_TO_PAGE_IDX offset)
            (ccsr_writel pagedBus pcie offset value s)).hw.paged (OFFSET_TO_PAGE_IDX offset))
            (s.hw.base + OFFSET_TO_PAGE_ADDR offset) := by
      rw [ccsr_readl_paged pagedBus pcie offset _ hge h32, hbase]
      simp only [in_le32, pagedBus_in_le32]
      rw [Nat.mod_eq_of_lt (load_le32_lt _ _), paged_view_inside _ _ (by rw [hb3, hb2]; exact hin),
        hp3]
    have hstore : load_le32 ((ccsr_writel pagedBus pcie offset value s).hw.paged
        (OFFSET_TO_PAGE_IDX offset)) (s.hw.base + OFFSET_TO_PAGE_ADDR offset) = value := by
      have hps := paged_store_page_same
        (ccsr_set_page pagedBus pcie (OFFSET_TO_PAGE_IDX offset) s).hw
        (s.hw.base + OFFSET_TO_PAGE_ADDR offset) value (by rw [hb1]; exact hin)
      rw [hp1, hv32] at hps
      rw [hw]
      exact hps
    constructor
    · intro _
      rw [hres, set_page_paged_window pcie _ _ _ _ hbase2 (by rw [hb2]; exact hin.1), hstore]
    · intro he
      simp only [PAB_CTRL] at he
      omega

/-- C17 (witness): on a zeroed paged register model, 0x12345678 written to
offset 0x1ba0 is read back from it, and 0xffffffff written to PAB_CTRL is read
back with its page-select bits cleared. -/
theorem ccsr_write_read_round_trip_witness :
    (mkPcie 0 0 0 false).ccsr = zeroPaged.hw.base ∧ 0x1ba0 < 2 ^ 32 ∧ 0x1ba0 % 4 = 0 ∧
    0x12345678 < 2 ^ 32 ∧ 0x1ba0 ≠ PAB_CTRL ∧
    (ccsr_readl pagedBus (mkPcie 0 0 0 false) 0x1ba0
      (ccsr_writel pagedBus (mkPcie 0 0 0 false) 0x1ba0 0x12345678 zeroPaged)).1
      = 0x12345678 ∧
    (ccsr_readl pagedBus (mkPcie 0 0 0 false) PAB_CTRL
      (ccsr_writel pagedBus (mkPcie 0 0 0 false) PAB_CTRL 0xffffffff zeroPaged)).1
      = 0xfff81fff :=
  ⟨rfl, by decide, by decide, by decide, by decide,
    (ccsr_write_read_round_trip (mkPcie 0 0 0 false) 0x1ba0 0x12345678 zeroPaged rfl
      (by decide) (by decide) (by decide)).1 (by decide),
    (ccsr_write_read_round_trip (mkPcie 0 0 0 false) PAB_CTRL 0xffffffff zeroPaged rfl
      (by decide) (by decide) (by decide)).2 rfl⟩

theorem paged_update_update (h : PagedRegs) (a v w : Nat)
    (ha : a + 4 ≤ h.base + 0xc00 ∨ h.base + 0x1000 ≤ a) :
    (h.update (fun m => store_le32 m a v)).update (fun m => store_le32 m a w)
      = h.update (fun m => store_le32 m a w) := by
  have hwin : ∀ x, h.inWindow x = true → x < a ∨ a + 4 ≤ x := by
    intro x hx
    simp only [PagedRegs.inWindow, INDIRECT_ADDR_BNDRY, decide_eq_true_eq] at hx
    omega
  have hd : (fun x => if (h.update (fun m => store_le32 m a v)).inWindow x = true
        then (h.update (fun m => store_le32 m a v)).direct x
        else store_le32 (h.update (fun m => store_le32 m a v)).direct a w x)
      = (fun x => if h.inWindow x = true then h.direct x else store_le32 h.direct a w x) := by
    funext x
    have e : (h.update (fun m => store_le32 m a v)).inWindow x = h.inWindow x := rfl
    rw [e]
    by_cases hx : h.inWindow x = true
    · simp only [if_pos hx, PagedRegs.update]
    · simp only [if_neg hx, PagedRegs.update]
      simp only [store_le32, ByteMem.set, if_neg hx]
      split_ifs <;> rfl
  have hp : (fun p x => if p = (h.update (fun m => store_le32 m a v)).page ∧
          (h.update (fun m => store_le32 m a v)).inWindow x = true
        then store_le32 ((h.update (fun m => store_le32 m a v)).paged p) a w x
        else (h.update (fun m => store_le32 m a v)).paged p x)
      = (fun p x => if p = h.page ∧ h.inWindow x = true
          then store_le32 (h.paged p) a w x else h.paged p x) := by
    funext p x
    have e : (h.update (fun m => store_le32 m a v)).inWindow x = h.inWindow x := rfl
    have inner : (h.update (fun m => store_le32 m a v)).paged p x = h.paged p x := by
      simp only [PagedRegs.update]
      by_cases hc : p = h.page ∧ h.inWindow x = true
      · rw [if_pos hc]
        exact store_le32_frame _ a v x (hwin x hc.2)
      · rw [if_neg hc]
    rw [e]
    by_cases hx : h.inWindow x = true
    · have l := store_le32_frame ((h.update (fun m => store_le32 m a v)).paged p) a w x
        (hwin x hx)
      have r := store_le32_frame (h.paged p) a w x (hwin x hx)
      rw [l, r, inner]
      simp only [ite_self]
    · have n1 : ¬ (p = (h.update (fun m => store_le32 m a v)).page ∧ h.inWindow x = true) :=
        fun c => hx c.2
      have n2 : ¬ (p = h.page ∧ h.inWindow x = true) := fun c => hx c.2
      rw [if_neg n1, if_neg n2, inner]
  show PagedRegs.mk _ _ _ = PagedRegs.mk _ _ _
  rw [PagedRegs.mk.injEq]
  exact ⟨rfl, hd, hp⟩

theorem ccsr_set_page_paged_twice (pcie : lx_pcie) (p q : Nat) (s t : Sys PagedRegs)
    (hbase : pcie.ccsr = s.hw.base)
    (ht : t.hw = (ccsr_set_page pagedBus pcie p s).hw) :
    (ccsr_set_page pagedBus pcie q t).hw = (ccsr_set_page pagedBus pcie q s).hw := by
  have hout : s.hw.base + PAB_CTRL + 4 ≤ s.hw.base + 0xc00 ∨
      s.hw.base + 0x1000 ≤ s.hw.base + PAB_CTRL := by
    simp only [PAB_CTRL]
    omega
  have hb1 := set_page_paged_base pcie p s hbase
  have hp1 := set_page_paged_pab pcie p s hbase
  have hbt : pcie.ccsr = t.hw.base := by
    rw [ht, hb1]
    exact hbase
  rw [ccsr_set_page_paged pcie q t hbt, ht, hb1, hp1, page_field_frame,
    ccsr_set_page_paged pcie p s hbase, paged_update_update _ _ _ _ hout,
    ccsr_set_page_paged pcie q s hbase]

/-- C16: on a byte-addressed memory and on the paged register model,
selecting page p twice leaves the same register state as selecting it once,
and selecting p and then q leaves the same state as selecting q alone; hence a
second ccsr_readl of the same offset returns the same value as the first and
leaves the same state. -/
theorem ccsr_set_page_idempotent (pcie : lx_pcie) (p q offset : Nat) (s : Sys ByteMem)
    (sp : Sys PagedRegs) (hbase : pcie.ccsr = sp.hw.base) :
    (ccsr_set_page memBus pcie p (ccsr_set_page memBus pcie p s)).hw
      = (ccsr_set_page memBus pcie p s).hw ∧
    (ccsr_set_page memBus pcie q (ccsr_set_page memBus pcie p s)).hw
      = (ccsr_set_page memBus pcie q s).hw ∧
    (ccsr_readl memBus pcie offset (ccsr_readl memBus pcie offset s).2).1
      = (ccsr_readl memBus pcie offset s).1 ∧
    (ccsr_readl memBus pcie offset (ccsr_readl memBus pcie offset s).2).2.hw
      = (ccsr_readl memBus pcie offset s).2.hw ∧
    (ccsr_set_page pagedBus pcie p (ccsr_set_page pagedBus pcie p sp)).hw
      = (ccsr_set_page pagedBus pcie p sp).hw ∧
    (ccsr_set_page pagedBus pcie q (ccsr_set_page pagedBus pcie p sp)).hw
      = (ccsr_set_page pagedBus pcie q sp).hw ∧
    (ccsr_readl pagedBus pcie offset (ccsr_readl pagedBus pcie offset sp).2).1
      = (ccsr_readl pagedBus pcie offset sp).1 ∧
    (ccsr_readl pagedBus pcie offset (ccsr_readl pagedBus pcie offset sp).2).2.hw
      = (ccsr_readl pagedBus pcie offset sp).2.hw := by
  refine ⟨ccsr_set_page_mem_twice pcie p p s _ rfl, ccsr_set_page_mem_twice pcie p q s _ rfl,
    ?_, ?_, ccsr_set_page_paged_twice pcie p p sp _ hbase rfl,
    ccsr_set_page_paged_twice pcie p q sp _ hbase rfl, ?_, ?_⟩
  · unfold ccsr_readl
    by_cases h : offset % 2 ^ 32 < INDIRECT_ADDR_BNDRY
    · simp only [if_pos h, in_le32]
      refine congrArg (fun m => memBus.in_le32 m _ % 2 ^ 32) ?_
      exact ccsr_set_page_mem_twice pcie 0 0 s _ rfl
    · simp only [if_neg h, in_le32]
      refine congrArg (fun m => memBus.in_le32 m _ % 2 ^ 32) ?_
      exact ccsr_set_page_mem_twice pcie _ _ s _ rfl
  · unfold ccsr_readl
    by_cases h : offset % 2 ^ 32 < INDIRECT_ADDR_BNDRY
    · simp only [if_pos h, in_le32]
      exact ccsr_set_page_mem_twice pcie 0 0 s _ rfl
    · simp only [if_neg h, in_le32]
      exact ccsr_set_page_mem_twice pcie _ _ s _ rfl
  · unfold ccsr_readl
    by_cases h : offset % 2 ^ 32 < INDIRECT_ADDR_BNDRY
    · simp only [if_pos h, in_le32]
      refine congrArg (fun m => pagedBus.in_le32 m _ % 2 ^ 32) ?_
      exact ccsr_set_page_paged_twice pcie 0 0 sp _ hbase rfl
    · simp only [if_neg h, in_le32]
      refine congrArg (fun m => pagedBus.in_le32 m _ % 2 ^ 32) ?_
      exact ccsr_set_page_paged_twice pcie _ _ sp _ hbase rfl
  · unfold ccsr_readl
    by_cases h : offset % 2 ^ 32 < INDIRECT_ADDR_BNDRY
    · simp only [if_pos h, in_le32]
      exact ccsr_set_page_paged_twice pcie 0 0 sp _ hbase rfl
    · simp only [if_neg h, in_le32]
      exact ccsr_set_page_paged_twice pcie _ _ sp _ hbase rfl

/-- C16 (witness): on the paged register model holding 0x12345678 at offset
0x1ba0, the second of two consecutive reads of that offset returns
0x12345678 like the first. -/
theorem ccsr_set_page_idempotent_witness :
    (mkPcie 0 0 0 false).ccsr
      = (ccsr_writel pagedBus (mkPcie 0 0 0 false) 0x1ba0 0x12345678 zeroPaged).hw.base ∧
    (ccsr_readl pagedBus (mkPcie 0 0 0 false) 0x1ba0
      (ccsr_readl pagedBus (mkPcie 0 0 0 false) 0x1ba0
        (ccsr_writel pagedBus (mkPcie 0 0 0 false) 0x1ba0 0x12345678 zeroPaged)).2).1
      = 0x12345678 :=
  ⟨rfl,
    (ccsr_set_page_idempotent (mkPcie 0 0 0 false) 3 5 0x1ba0 zeroSys
      (ccsr_writel pagedBus (mkPcie 0 0 0 false) 0x1ba0 0x12345678 zeroPaged) rfl).2.2.2.2.2.2.1⟩

end PcieLx
